import Mathlib

/-!
# pkg/sync: TMutex and DowngradableRWMutex

A shallow embedding of `pkg/sync/tmutex_unsafe.go` and
`pkg/sync/downgradable_rwmutex_unsafe.go`.

* `int32` fields are integers reduced with `wrap32` after every arithmetic
  operation; `uint32` semaphore words are naturals reduced with `wrapU32`.
* Every method is a function from the lock value before the call to a `Ret`:
  the lock value at the point where the call returns, suspends or dies, how it
  ended, and the semaphores it posted, in order.
* `sync.Mutex` (embedded in `TMutex`) belongs to the Go standard library, not to
  this package; `Mutex.Lock` and `Mutex.Unlock` follow `sync/mutex.go` of
  go1.13/go1.14, the releases the build tags of both files admit.
-/

namespace Sync

/-! ## Machine integers and atomics -/

/-- Two's-complement reduction to the `int32` range: the value an `int32`
holds after an addition that overflowed. -/
def wrap32 (x : Int) : Int := (x + 2147483648) % 4294967296 - 2147483648

/-- Reduction to the `uint32` range. -/
def wrapU32 (n : Nat) : Nat := n % 4294967296

/-- The values an `int32` can hold. -/
def isInt32 (x : Int) : Prop := -2147483648 ≤ x ∧ x < 2147483648

instance (x : Int) : Decidable (isInt32 x) := by
  unfold isInt32; infer_instance

/-- The call `atomic.AddInt32(addr, delta)`: the new value, which is also what is stored. -/
def AddInt32 (v delta : Int) : Int := wrap32 (v + delta)

/-- The call `atomic.CompareAndSwapInt32(addr, old, new)`: whether it swapped, and
the value stored afterwards. -/
def CompareAndSwapInt32 (v old new : Int) : Bool × Int :=
  if v = old then (true, new) else (false, v)

/-- The call `runtimeSemacquire(s)`: takes one unit if the semaphore word is
positive, otherwise (`none`) the caller is suspended. -/
def runtimeSemacquire (s : Nat) : Option Nat :=
  if 0 < s then some (s - 1) else none

/-- The call `runtimeSemrelease(s, handoff, skipframes)`: adds one unit. -/
def runtimeSemrelease (s : Nat) : Nat := wrapU32 (s + 1)

/-! ## TMutex -/

/-- The constant `mutexLocked = 1 << iota`: the "mutex is locked" bit. -/
def mutexLocked : Int := 1

/-- The view `syncMutex` of a `TMutex`: the state word and the semaphore of the
embedded `sync.Mutex`. -/
structure TMutex where
  state : Int
  sema : Nat
  deriving DecidableEq, Repr

/-- The zero value `var m TMutex`. -/
def TMutex.zero : TMutex := ⟨0, 0⟩

/-- Whether the "mutex is locked" bit is set: `state & mutexLocked != 0`. -/
def TMutex.isLocked (m : TMutex) : Prop := m.state % 2 = 1

instance (m : TMutex) : Decidable m.isLocked := by
  unfold TMutex.isLocked; infer_instance

/-- Whether the `mutexStarving` bit (`1 << 2`) of `sync.Mutex` is set. -/
def TMutex.isStarving (m : TMutex) : Prop := m.state / 4 % 2 = 1

instance (m : TMutex) : Decidable m.isStarving := by
  unfold TMutex.isStarving; infer_instance

/-- The method `TMutex.TryLock`: one compare-and-swap of the state word from 0
to `mutexLocked`. -/
def TMutex.TryLock (m : TMutex) : Bool × TMutex :=
  match CompareAndSwapInt32 m.state 0 mutexLocked with
  | (true, v) => (true, { m with state := v })
  | (false, _) => (false, m)

/-- The standard library `sync.Mutex.Lock` up to the point where it returns
or suspends. The fast path swaps 0 for `mutexLocked`. In `lockSlow`, a word
with the locked and starving bits clear gets the locked bit and the call
returns (`true`); otherwise the caller adds itself to the waiter count
(`1 << mutexWaiterShift = 8`) and suspends on `sema` (`false`). -/
def Mutex.Lock (m : TMutex) : TMutex × Bool :=
  match CompareAndSwapInt32 m.state 0 mutexLocked with
  | (true, v) => ({ m with state := v }, true)
  | (false, old) =>
    if old % 2 = 0 ∧ old / 4 % 2 = 0 then ({ m with state := old + 1 }, true)
    else ({ m with state := wrap32 (old + 8) }, false)

/-- The standard library `sync.Mutex.Unlock`: drops the locked bit; when the
word is then non-zero, `unlockSlow` throws `sync: unlock of unlocked mutex`
(`false`) if the bit was not set, and otherwise wakes a waiter when one has to
be woken: `(old - 1<<mutexWaiterShift) | mutexWoken` is `wrap32 (new - 8) + 2`,
the low three bits of `new` being clear there. -/
def Mutex.Unlock (m : TMutex) : TMutex × Bool :=
  let new := AddInt32 m.state (-mutexLocked)
  if new = 0 then ({ m with state := new }, true)
  else if wrap32 (new + mutexLocked) % 2 = 0 then ({ m with state := new }, false)
  else if new / 4 % 2 = 0 then
    if new / 8 = 0 ∨ new % 8 ≠ 0 then ({ m with state := new }, true)
    else (⟨wrap32 (new - 8) + 2, runtimeSemrelease m.sema⟩, true)
  else (⟨new, runtimeSemrelease m.sema⟩, true)

/-! ## DowngradableRWMutex -/

/-- The constant `rwmutexMaxReaders = 1 << 30`. -/
def rwmutexMaxReaders : Int := 1073741824

/-- The struct `DowngradableRWMutex`. -/
structure DowngradableRWMutex where
  w : TMutex
  writerSem : Nat
  readerSem : Nat
  readerCount : Int
  readerWait : Int
  deriving DecidableEq, Repr

/-- The zero value: the unlocked lock. -/
def DowngradableRWMutex.zero : DowngradableRWMutex := ⟨TMutex.zero, 0, 0, 0, 0⟩

/-- The three semaphores a call can touch. -/
inductive Sem
  | wSema
  | writerSem
  | readerSem
  deriving DecidableEq, Repr

/-- How a call ends. -/
inductive Outcome
  | returned
  | parked (sem : Sem)
  | panicked (msg : String)
  | thrown (msg : String)
  deriving DecidableEq, Repr

/-- The lock after a call, how the call ended, and the semaphores it posted. -/
structure Ret where
  rw : DowngradableRWMutex
  out : Outcome
  posts : List Sem
  deriving DecidableEq, Repr

def msgRUnlock : String := "RUnlock of unlocked DowngradableRWMutex"
def msgUnlock : String := "Unlock of unlocked DowngradableRWMutex"
def msgDowngradeLock : String := "DowngradeLock of unlocked DowngradableRWMutex"
def msgMutexUnlock : String := "sync: unlock of unlocked mutex"

namespace DowngradableRWMutex

/-- The method `TryRLock`; `fuel` bounds the iterations of its `for` loop. -/
def TryRLock : Nat → DowngradableRWMutex → Option (Bool × DowngradableRWMutex)
  | 0, _ => none
  | fuel + 1, rw =>
    let rc := rw.readerCount
    if rc < 0 then some (false, rw)
    else
      match CompareAndSwapInt32 rw.readerCount rc (wrap32 (rc + 1)) with
      | (false, _) => TryRLock fuel rw
      | (true, v) => some (true, { rw with readerCount := v })

/-- The method `RLock`. -/
def RLock (rw : DowngradableRWMutex) : Ret :=
  let rc := AddInt32 rw.readerCount 1
  let rw1 := { rw with readerCount := rc }
  if rc < 0 then
    match runtimeSemacquire rw1.readerSem with
    | some n => ⟨{ rw1 with readerSem := n }, .returned, []⟩
    | none => ⟨rw1, .parked .readerSem, []⟩
  else ⟨rw1, .returned, []⟩

/-- The method `RUnlock`. -/
def RUnlock (rw : DowngradableRWMutex) : Ret :=
  let r := AddInt32 rw.readerCount (-1)
  let rw1 := { rw with readerCount := r }
  if r < 0 then
    if wrap32 (r + 1) = 0 ∨ wrap32 (r + 1) = -rwmutexMaxReaders then
      ⟨rw1, .panicked msgRUnlock, []⟩
    else
      let n := AddInt32 rw1.readerWait (-1)
      let rw2 := { rw1 with readerWait := n }
      if n = 0 then
        ⟨{ rw2 with writerSem := runtimeSemrelease rw2.writerSem }, .returned, [.writerSem]⟩
      else ⟨rw2, .returned, []⟩
  else ⟨rw1, .returned, []⟩

/-- The method `TryLock`. -/
def TryLock (rw : DowngradableRWMutex) : Bool × Ret :=
  match rw.w.TryLock with
  | (false, _) => (false, ⟨rw, .returned, []⟩)
  | (true, w1) =>
    let rw1 := { rw with w := w1 }
    match CompareAndSwapInt32 rw1.readerCount 0 (-rwmutexMaxReaders) with
    | (false, _) =>
      match Mutex.Unlock rw1.w with
      | (w2, true) => (false, ⟨{ rw1 with w := w2 }, .returned, []⟩)
      | (w2, false) => (false, ⟨{ rw1 with w := w2 }, .thrown msgMutexUnlock, []⟩)
    | (true, v) => (true, ⟨{ rw1 with readerCount := v }, .returned, []⟩)

/-- The method `Lock`. -/
def Lock (rw : DowngradableRWMutex) : Ret :=
  match Mutex.Lock rw.w with
  | (w1, false) => ⟨{ rw with w := w1 }, .parked .wSema, []⟩
  | (w1, true) =>
    let rw1 := { rw with w := w1 }
    let r := wrap32 (AddInt32 rw1.readerCount (-rwmutexMaxReaders) + rwmutexMaxReaders)
    let rw2 := { rw1 with readerCount := AddInt32 rw1.readerCount (-rwmutexMaxReaders) }
    if r ≠ 0 then
      let n := AddInt32 rw2.readerWait r
      let rw3 := { rw2 with readerWait := n }
      if n ≠ 0 then
        match runtimeSemacquire rw3.writerSem with
        | some k => ⟨{ rw3 with writerSem := k }, .returned, []⟩
        | none => ⟨rw3, .parked .writerSem, []⟩
      else ⟨rw3, .returned, []⟩
    else ⟨rw2, .returned, []⟩

/-- The loop `for ; i < int(r); i++ { runtimeSemrelease(&rw.readerSem, false, 0) }`
of `Unlock` (entered with `i = 0`) and `DowngradeLock` (entered with `i = 1`):
the semaphore word afterwards and the posts made, appended to `acc`. -/
def releaseReaders (i r : Int) (sem : Nat) (acc : List Sem) : Nat × List Sem :=
  if i < r then releaseReaders (i + 1) r (runtimeSemrelease sem) (acc ++ [Sem.readerSem])
  else (sem, acc)
termination_by (r - i).toNat
decreasing_by omega

/-- The tail `rw.w.Unlock()` shared by `Unlock` and `DowngradeLock`. -/
def releaseW (rw : DowngradableRWMutex) (posts : List Sem) : Ret :=
  match Mutex.Unlock rw.w with
  | (w1, true) => ⟨{ rw with w := w1 }, .returned, posts⟩
  | (w1, false) => ⟨{ rw with w := w1 }, .thrown msgMutexUnlock, posts⟩

/-- The method `Unlock`. -/
def Unlock (rw : DowngradableRWMutex) : Ret :=
  let r := AddInt32 rw.readerCount rwmutexMaxReaders
  let rw1 := { rw with readerCount := r }
  if r ≥ rwmutexMaxReaders then ⟨rw1, .panicked msgUnlock, []⟩
  else
    let (sem, posts) := releaseReaders 0 r rw1.readerSem []
    releaseW { rw1 with readerSem := sem } posts

/-- The method `DowngradeLock`. -/
def DowngradeLock (rw : DowngradableRWMutex) : Ret :=
  let r := AddInt32 rw.readerCount (rwmutexMaxReaders + 1)
  let rw1 := { rw with readerCount := r }
  if r ≥ rwmutexMaxReaders + 1 then ⟨rw1, .panicked msgDowngradeLock, []⟩
  else
    let (sem, posts) := releaseReaders 1 r rw1.readerSem []
    releaseW { rw1 with readerSem := sem } posts

end DowngradableRWMutex

end Sync

namespace Sync.DowngradableRWMutex

/-! ## Lock against TryLock, and the downgrade round trip -/

/-- Whether `Lock` ends suspended, in `rw.w.Lock()` or in
`runtimeSemacquire(&rw.writerSem)`. -/
def LockSuspends (rw : DowngradableRWMutex) : Bool :=
  match (Lock rw).out with
  | .parked _ => true
  | _ => false

/-- The specification of when `Lock` suspends, in the words of the spec: `w`
is already held, or the reader count `r` observed before the bias is non-zero
and `readerWait + r` is non-zero. -/
def LockSuspendsSpec (rw : DowngradableRWMutex) : Prop :=
  rw.w.isLocked ∨ (rw.readerCount ≠ 0 ∧ rw.readerWait + rw.readerCount ≠ 0)

instance (rw : DowngradableRWMutex) : Decidable (LockSuspendsSpec rw) := by
  unfold LockSuspendsSpec; infer_instance

/-- The lock after A's `Lock; DowngradeLock`, B's `TryRLock` and C's failed
`TryLock`: two readers, `w` free. -/
def afterDowngradeAndTryRLock : DowngradableRWMutex := ⟨⟨0, 0⟩, 0, 0, 2, 0⟩

/-! ## A writer draining its readers -/

/-- The state read-held(k): `k` readers in, nobody waiting, `w` free (its word
is 0, whatever its semaphore word `sema`), both semaphores of the lock empty. -/
def readHeld (k sema : Nat) : DowngradableRWMutex := ⟨⟨0, sema⟩, 0, 0, k, 0⟩

/-- The results of `n` successive calls of `RUnlock`, each on the lock the
previous call left. -/
def RUnlockTimes : Nat → DowngradableRWMutex → List Ret
  | 0, _ => []
  | n + 1, rw => RUnlock rw :: RUnlockTimes n (RUnlock rw).rw

/-- All the posts of a sequence of calls, in order. -/
def allPosts : List Ret → List Sem
  | [] => []
  | r :: l => r.posts ++ allPosts l

end Sync.DowngradableRWMutex

/-! ## Threads interleaving on one DowngradableRWMutex

Each thread is at a program point `PC`; a step of the system is one atomic
operation (an `atomic` call, a semaphore call, or a call on `w`) of one thread.
`rw.w.Lock()` of the standard library is one blocking step: it is enabled when
`Mutex.Lock` returns without suspending. A step that would suspend in
`runtimeSemacquire` is not enabled until the semaphore is positive. -/

namespace Sync.Interleaving

open DowngradableRWMutex

/-- Where a thread stands: outside every call (`idle`), in the read region
(`reading`), in the write region (`writing`), or between two atomic operations
of a method. -/
inductive PC
  /-- Outside every method, holding nothing. -/
  | idle
  /-- In `TryRLock`, at the head of the loop after a failed compare-and-swap. -/
  | tryRLockHead
  /-- In `TryRLock`, after `LoadInt32` returned `rc`, before the compare-and-swap. -/
  | tryRLockLoaded (rc : Int)
  /-- In `RLock`, after the increment, in `runtimeSemacquire(&rw.readerSem)`. -/
  | rLockParked
  /-- After `RLock`, a successful `TryRLock` or `DowngradeLock` returned, before `RUnlock`. -/
  | reading
  /-- In `RUnlock`, after the decrement, before `AddInt32(&rw.readerWait, -1)`. -/
  | rUnlockWait
  /-- In `RUnlock`, before `runtimeSemrelease(&rw.writerSem)`. -/
  | rUnlockPost
  /-- In `Lock`, after `rw.w.Lock()` returned, before the bias. -/
  | lockHasW
  /-- In `Lock`, after the bias gave `r ≠ 0`, before `AddInt32(&rw.readerWait, r)`. -/
  | lockAnnounced (r : Int)
  /-- In `Lock`, in `runtimeSemacquire(&rw.writerSem)`. -/
  | lockParked
  /-- After `Lock` or a successful `TryLock` returned, before `Unlock` or `DowngradeLock`. -/
  | writing
  /-- In `TryLock`, after `rw.w.TryLock()` succeeded, before the compare-and-swap. -/
  | tryLockHasW
  /-- In `TryLock`, after the compare-and-swap failed, before `rw.w.Unlock()`. -/
  | tryLockFailed
  /-- In `Unlock`, at the test `i < int(r)` of the loop. -/
  | unlockLoop (i r : Int)
  /-- In `DowngradeLock`, at the test `i < int(r)` of the loop. -/
  | downgradeLoop (i r : Int)
  /-- After a panic or a runtime throw. -/
  | crashed
  deriving DecidableEq, Repr

/-- The atomic steps a thread at `pc` can take on the lock `rw`: the lock and
the program point after each. A thread that is `idle` may start any acquiring
method, one that is `reading` may call `RUnlock`, one that is `writing` may
call `Unlock` or `DowngradeLock`. -/
def next (rw : DowngradableRWMutex) : PC → List (DowngradableRWMutex × PC)
  | .idle =>
    [ (let rc := AddInt32 rw.readerCount 1
       ({ rw with readerCount := rc }, if rc < 0 then .rLockParked else .reading)),
      (rw, if rw.readerCount < 0 then .idle else .tryRLockLoaded rw.readerCount),
      (match rw.w.TryLock with
       | (true, w1) => ({ rw with w := w1 }, .tryLockHasW)
       | (false, _) => (rw, .idle)) ] ++
    (match Mutex.Lock rw.w with
     | (w1, true) => [({ rw with w := w1 }, .lockHasW)]
     | (_, false) => [])
  | .tryRLockHead =>
    [(rw, if rw.readerCount < 0 then .idle else .tryRLockLoaded rw.readerCount)]
  | .tryRLockLoaded rc =>
    [match CompareAndSwapInt32 rw.readerCount rc (wrap32 (rc + 1)) with
     | (true, v) => ({ rw with readerCount := v }, .reading)
     | (false, _) => (rw, .tryRLockHead)]
  | .rLockParked =>
    match runtimeSemacquire rw.readerSem with
    | some n => [({ rw with readerSem := n }, .reading)]
    | none => []
  | .reading =>
    [let r := AddInt32 rw.readerCount (-1)
     ({ rw with readerCount := r },
      if r < 0 then
        if wrap32 (r + 1) = 0 ∨ wrap32 (r + 1) = -rwmutexMaxReaders then .crashed
        else .rUnlockWait
      else .idle)]
  | .rUnlockWait =>
    [let n := AddInt32 rw.readerWait (-1)
     ({ rw with readerWait := n }, if n = 0 then .rUnlockPost else .idle)]
  | .rUnlockPost =>
    [({ rw with writerSem := runtimeSemrelease rw.writerSem }, .idle)]
  | .lockHasW =>
    [let r := wrap32 (AddInt32 rw.readerCount (-rwmutexMaxReaders) + rwmutexMaxReaders)
     ({ rw with readerCount := AddInt32 rw.readerCount (-rwmutexMaxReaders) },
      if r ≠ 0 then .lockAnnounced r else .writing)]
  | .lockAnnounced r =>
    [let n := AddInt32 rw.readerWait r
     ({ rw with readerWait := n }, if n ≠ 0 then .lockParked else .writing)]
  | .lockParked =>
    match runtimeSemacquire rw.writerSem with
    | some k => [({ rw with writerSem := k }, .writing)]
    | none => []
  | .writing =>
    [ (let r := AddInt32 rw.readerCount rwmutexMaxReaders
       ({ rw with readerCount := r },
        if r ≥ rwmutexMaxReaders then .crashed else .unlockLoop 0 r)),
      (let r := AddInt32 rw.readerCount (rwmutexMaxReaders + 1)
       ({ rw with readerCount := r },
        if r ≥ rwmutexMaxReaders + 1 then .crashed else .downgradeLoop 1 r)) ]
  | .tryLockHasW =>
    [match CompareAndSwapInt32 rw.readerCount 0 (-rwmutexMaxReaders) with
     | (true, v) => ({ rw with readerCount := v }, .writing)
     | (false, _) => (rw, .tryLockFailed)]
  | .tryLockFailed =>
    [match Mutex.Unlock rw.w with
     | (w2, true) => ({ rw with w := w2 }, .idle)
     | (w2, false) => ({ rw with w := w2 }, .crashed)]
  | .unlockLoop i r =>
    [if i < r then
       ({ rw with readerSem := runtimeSemrelease rw.readerSem }, .unlockLoop (i + 1) r)
     else
       match Mutex.Unlock rw.w with
       | (w1, true) => ({ rw with w := w1 }, .idle)
       | (w1, false) => ({ rw with w := w1 }, .crashed)]
  | .downgradeLoop i r =>
    [if i < r then
       ({ rw with readerSem := runtimeSemrelease rw.readerSem }, .downgradeLoop (i + 1) r)
     else
       match Mutex.Unlock rw.w with
       | (w1, true) => ({ rw with w := w1 }, .reading)
       | (w1, false) => ({ rw with w := w1 }, .crashed)]
  | .crashed => []

/-- The lock and the program point of every thread. -/
structure System where
  rw : DowngradableRWMutex
  pcs : List PC
  deriving DecidableEq, Repr

/-- The unlocked lock and `n` idle threads. -/
def System.init (n : Nat) : System := ⟨DowngradableRWMutex.zero, List.replicate n PC.idle⟩

/-- One atomic step of thread `t`. -/
def Step (s s1 : System) : Prop :=
  ∃ t, ∃ h : t < s.pcs.length, ∃ q ∈ next s.rw (s.pcs.get ⟨t, h⟩),
    s1 = ⟨q.1, s.pcs.set t q.2⟩

/-- Whether a thread is counted in `readerCount` as a reader: it incremented
`readerCount` (or downgraded) and has not yet started `RUnlock`. -/
def PC.isReader : PC → Bool
  | .rLockParked => true
  | .reading => true
  | .downgradeLoop _ _ => true
  | _ => false

/-- The number of threads counted as readers. -/
def readers (pcs : List PC) : Nat := pcs.countP PC.isReader

/-- The states reached from the unlocked lock with `n` idle threads by
interleaved atomic steps, with fewer than 2^30 readers at every moment. -/
inductive Reachable (n : Nat) : System → Prop
  | init : Reachable n (System.init n)
  | step {s s1 : System} : Reachable n s → Step s s1 → readers s1.pcs < 1073741824 →
      Reachable n s1

/-! ### Counting threads by program point -/

/-- The sum of the weight `f` over all threads. -/
def total (f : PC → Int) (l : List PC) : Int := (l.map f).sum

/-! The weights `cLH`, `cLA`, `cLP`, `cWr`, `cTH`, `cTF`, `cUL`, `cDL`, `cRP`, `cRd`, `cU`
and `cQ` are the indicators of the program points `lockHasW`, `lockAnnounced`,
`lockParked`, `writing`, `tryLockHasW`, `tryLockFailed`, `unlockLoop`,
`downgradeLoop`, `rLockParked`, `reading`, `rUnlockWait` and `rUnlockPost`. -/

def cLH : PC → Int
  | .lockHasW => 1
  | _ => 0

def cLA : PC → Int
  | .lockAnnounced _ => 1
  | _ => 0

def cLP : PC → Int
  | .lockParked => 1
  | _ => 0

def cWr : PC → Int
  | .writing => 1
  | _ => 0

def cTH : PC → Int
  | .tryLockHasW => 1
  | _ => 0

def cTF : PC → Int
  | .tryLockFailed => 1
  | _ => 0

def cUL : PC → Int
  | .unlockLoop _ _ => 1
  | _ => 0

def cDL : PC → Int
  | .downgradeLoop _ _ => 1
  | _ => 0

def cRP : PC → Int
  | .rLockParked => 1
  | _ => 0

def cRd : PC → Int
  | .reading => 1
  | _ => 0

def cU : PC → Int
  | .rUnlockWait => 1
  | _ => 0

def cQ : PC → Int
  | .rUnlockPost => 1
  | _ => 0

/-- The posts of `readerSem` a thread in a release loop still has to make. -/
def pend : PC → Int
  | .unlockLoop i r => ((r - i).toNat : Int)
  | .downgradeLoop i r => ((r - i).toNat : Int)
  | _ => 0

/-- The reader count a thread in `Lock` observed and has yet to add to `readerWait`. -/
def vLA : PC → Int
  | .lockAnnounced r => r
  | _ => 0

/-- Threads in `TryRLock` holding a negative loaded value (there are none). -/
def cBad : PC → Int
  | .tryRLockLoaded rc => if rc < 0 then 1 else 0
  | _ => 0

/-! ### The invariant -/

/-- The number of threads at each program point that matters, the posts of
`readerSem` still to be made by release loops (`pnd`), and the reader count held
by a thread between the two additions of `Lock` (`vla`). -/
structure Census where
  nLH : Int
  nLA : Int
  nLP : Int
  nWr : Int
  nTH : Int
  nTF : Int
  nUL : Int
  nDL : Int
  nRP : Int
  nRd : Int
  nU : Int
  nQ : Int
  pnd : Int
  vla : Int
  bad : Int

/-- The census of a list of program points. -/
def census (l : List PC) : Census :=
  ⟨total cLH l, total cLA l, total cLP l, total cWr l, total cTH l, total cTF l,
   total cUL l, total cDL l, total cRP l, total cRd l, total cU l, total cQ l,
   total pend l, total vLA l, total cBad l⟩

/-- What holds of the census of every list: counts are not negative, nothing is
pending without a release loop, nothing is announced without an announcer. -/
def Census.Facts (c : Census) : Prop :=
  0 ≤ c.nLH ∧ 0 ≤ c.nLA ∧ 0 ≤ c.nLP ∧ 0 ≤ c.nWr ∧ 0 ≤ c.nTH ∧ 0 ≤ c.nTF ∧
  0 ≤ c.nUL ∧ 0 ≤ c.nDL ∧ 0 ≤ c.nRP ∧ 0 ≤ c.nRd ∧ 0 ≤ c.nU ∧ 0 ≤ c.nQ ∧
  0 ≤ c.pnd ∧ 0 ≤ c.bad ∧
  (c.nUL + c.nDL = 0 → c.pnd = 0) ∧ (c.nLA = 0 → c.vla = 0)

/-- The invariant, on the lock and the census of the threads:
* the word of `w` is the number of threads between acquiring and releasing `w`,
  at most one;
* `readerCount` is the number of counted readers, minus `rwmutexMaxReaders`
  when a thread has put its bias in and not yet taken it out;
* without a bias, every parked reader has a unit of `readerSem` waiting or
  pending, and `readerWait`, `writerSem` are 0;
* between the two additions of `Lock`, `readerWait` is minus the number of
  readers that have left since the bias;
* while `Lock` is parked, `readerWait` is the number of readers still to leave,
  and `writerSem` is posted at most once, only when that number is 0;
* in the write region there is no reader. -/
def InvC (rw : DowngradableRWMutex) (c : Census) : Prop :=
  rw.w.state = c.nLH + c.nLA + c.nLP + c.nWr + c.nTH + c.nTF + c.nUL + c.nDL ∧
  c.nLH + c.nLA + c.nLP + c.nWr + c.nTH + c.nTF + c.nUL + c.nDL ≤ 1 ∧
  rw.readerCount = c.nRP + c.nRd + c.nDL - 1073741824 * (c.nLA + c.nLP + c.nWr) ∧
  c.nRP + c.nRd + c.nDL < 1073741824 ∧
  c.bad = 0 ∧
  (c.nLA + c.nLP + c.nWr = 0 →
    (rw.readerSem : Int) + c.pnd = c.nRP ∧ rw.readerWait = 0 ∧ c.nU = 0 ∧ c.nQ = 0 ∧
    rw.writerSem = 0) ∧
  (c.nLA = 1 →
    rw.readerWait + c.vla = c.nRd + c.nU + rw.readerSem ∧ rw.readerWait ≤ 0 ∧ c.nQ = 0 ∧
    rw.writerSem = 0 ∧ c.vla < 1073741824) ∧
  (c.nLP = 1 →
    rw.readerWait = c.nRd + c.nU + rw.readerSem ∧ c.nQ + (rw.writerSem : Int) ≤ 1 ∧
    (c.nQ + (rw.writerSem : Int) = 1 → rw.readerWait = 0) ∧ rw.readerWait < 1073741824) ∧
  (c.nWr = 1 →
    rw.readerWait = 0 ∧ c.nRd = 0 ∧ c.nU = 0 ∧ c.nQ = 0 ∧ rw.writerSem = 0 ∧
    rw.readerSem = 0)

/-- The invariant of the interleaved system. -/
def Inv (s : System) : Prop := InvC s.rw (census s.pcs)

/-- The census after one thread moved from `p` to `q`. -/
def Census.move (c : Census) (p q : PC) : Census :=
  ⟨c.nLH - cLH p + cLH q, c.nLA - cLA p + cLA q, c.nLP - cLP p + cLP q,
   c.nWr - cWr p + cWr q, c.nTH - cTH p + cTH q, c.nTF - cTF p + cTF q,
   c.nUL - cUL p + cUL q, c.nDL - cDL p + cDL q, c.nRP - cRP p + cRP q,
   c.nRd - cRd p + cRd q, c.nU - cU p + cU q, c.nQ - cQ p + cQ q,
   c.pnd - pend p + pend q, c.vla - vLA p + vLA q, c.bad - cBad p + cBad q⟩

/-- Fewer than 2^30 threads are counted as readers. -/
def Census.cap (c : Census) : Prop := c.nRP + c.nRd + c.nDL < 1073741824

/-- A thread at `p` is among the threads of the census. -/
def Census.Has (c : Census) (p : PC) : Prop :=
  cLH p ≤ c.nLH ∧ cLA p ≤ c.nLA ∧ cLP p ≤ c.nLP ∧ cWr p ≤ c.nWr ∧ cTH p ≤ c.nTH ∧
  cTF p ≤ c.nTF ∧ cUL p ≤ c.nUL ∧ cDL p ≤ c.nDL ∧ cRP p ≤ c.nRP ∧ cRd p ≤ c.nRd ∧
  cU p ≤ c.nU ∧ cQ p ≤ c.nQ ∧ pend p ≤ c.pnd ∧ cBad p ≤ c.bad

end Sync.Interleaving

/-! # Theorems -/

namespace Sync

/-! ## TMutex.TryLock -/

/-- C2 (counterexample): after `Lock`, a second `Lock` that queues and suspends,
and `Unlock`, the state word is 2 (`mutexWoken`): the locked bit is clear, yet
`TryLock` returns false. -/
theorem TMutex.tryLock_false_on_unlocked :
    (Mutex.Lock TMutex.zero) = (⟨1, 0⟩, true) ∧
    (Mutex.Lock ⟨1, 0⟩) = (⟨9, 0⟩, false) ∧
    (Mutex.Unlock ⟨9, 0⟩) = (⟨2, 1⟩, true) ∧
    ¬ (TMutex.mk 2 1).isLocked ∧
    (TMutex.mk 2 1).TryLock = (false, ⟨2, 1⟩) := by
  refine ⟨by decide, by decide, by decide, by decide, by decide⟩

/-- C2 (amended): `TryLock` returns true exactly when the state word is 0; the
word is then `mutexLocked` and the mutex is locked, and a mutex that was locked
never gives true. When it returns false the mutex is unchanged. On a fresh
mutex: `TryLock` after `Lock` and `TryLock` after `TryLock` return false, and
`TryLock` after `TryLock; Unlock` returns true. -/
theorem TMutex.tryLock_word_spec (m : TMutex) :
    (m.TryLock.1 = true ↔ m.state = 0) ∧
    (m.TryLock.1 = true → ¬ m.isLocked ∧ m.TryLock.2 = ⟨mutexLocked, m.sema⟩ ∧
      m.TryLock.2.isLocked) ∧
    (m.TryLock.1 = false → m.TryLock.2 = m) ∧
    (Mutex.Lock TMutex.zero).1.TryLock.1 = false ∧
    TMutex.zero.TryLock.1 = true ∧
    TMutex.zero.TryLock.2.TryLock.1 = false ∧
    Mutex.Unlock TMutex.zero.TryLock.2 = (TMutex.zero, true) ∧
    (Mutex.Unlock TMutex.zero.TryLock.2).1.TryLock.1 = true := by
  refine ⟨?_, ?_, ?_, by decide, by decide, by decide, by decide, by decide⟩
  · unfold TMutex.TryLock CompareAndSwapInt32
    by_cases h : m.state = 0 <;> simp [h]
  · unfold TMutex.TryLock CompareAndSwapInt32 TMutex.isLocked
    by_cases h : m.state = 0 <;> simp [h, mutexLocked]
  · unfold TMutex.TryLock CompareAndSwapInt32
    by_cases h : m.state = 0 <;> simp [h]

/-- C2 (witness): the amended statement at the mutex whose word is 0, where
`TryLock` succeeds. -/
theorem TMutex.tryLock_word_spec_witness :
    (TMutex.mk 0 3).TryLock.1 = true ∧ (TMutex.mk 0 3).TryLock.2 = ⟨mutexLocked, 3⟩ :=
  ⟨by decide, (((TMutex.tryLock_word_spec ⟨0, 3⟩).2.1) (by decide)).2.1⟩

end Sync

namespace Sync.DowngradableRWMutex

/-! ## TryLock -/

/-- Releasing a mutex whose word is exactly `mutexLocked` takes the fast path of
`sync.Mutex.Unlock` and leaves the word 0. -/
theorem unlock_of_tryLocked (sema : Nat) :
    Mutex.Unlock ⟨mutexLocked, sema⟩ = (⟨0, sema⟩, true) := by
  simp [Mutex.Unlock, AddInt32, wrap32, mutexLocked]

/-- The three ways `TryLock` goes, by the word of `w` and `readerCount`. -/
theorem tryLock_eq (rw : DowngradableRWMutex) :
    TryLock rw =
      if rw.w.state = 0 then
        if rw.readerCount = 0 then
          (true, ⟨{ rw with w := ⟨mutexLocked, rw.w.sema⟩,
                            readerCount := -rwmutexMaxReaders }, .returned, []⟩)
        else (false, ⟨rw, .returned, []⟩)
      else (false, ⟨rw, .returned, []⟩) := by
  obtain ⟨⟨st, sema⟩, ws, rs, rc, rwt⟩ := rw
  by_cases h : st = 0
  · by_cases h2 : rc = 0
    · subst h; subst h2
      simp [TryLock, TMutex.TryLock, CompareAndSwapInt32]
    · subst h
      simp [TryLock, TMutex.TryLock, CompareAndSwapInt32, h2, unlock_of_tryLocked]
  · simp [TryLock, TMutex.TryLock, CompareAndSwapInt32, h]

/-- C3: when `TryLock` returns false the lock is exactly as before the call
(also when `w` was free and only the compare-and-swap of `readerCount`
failed), and nothing was posted. When it returns true, `w` was free and is now
locked, `readerCount` went from 0 to `-rwmutexMaxReaders`, and `readerWait` and
both semaphores are unchanged. -/
theorem tryLock_spec (rw : DowngradableRWMutex) :
    ((TryLock rw).1 = false → TryLock rw = (false, ⟨rw, .returned, []⟩)) ∧
    (rw.w.state = 0 → rw.readerCount ≠ 0 →
      (TryLock rw).1 = false ∧ (TryLock rw).2.rw.w = rw.w ∧ ¬ (TryLock rw).2.rw.w.isLocked) ∧
    ((TryLock rw).1 = true →
      rw.readerCount = 0 ∧ (TryLock rw).2.rw.readerCount = -rwmutexMaxReaders ∧
      ¬ rw.w.isLocked ∧ (TryLock rw).2.rw.w.isLocked ∧
      (TryLock rw).2.rw.w = ⟨mutexLocked, rw.w.sema⟩ ∧
      (TryLock rw).2.rw.readerWait = rw.readerWait ∧
      (TryLock rw).2.rw.writerSem = rw.writerSem ∧
      (TryLock rw).2.rw.readerSem = rw.readerSem ∧
      (TryLock rw).2.out = .returned ∧ (TryLock rw).2.posts = []) := by
  rw [tryLock_eq]
  refine ⟨?_, ?_, ?_⟩
  · intro h
    by_cases h1 : rw.w.state = 0 <;> by_cases h2 : rw.readerCount = 0 <;> simp_all
  · intro h1 h2
    simp [h1, h2, TMutex.isLocked]
  · intro h
    by_cases h1 : rw.w.state = 0 <;> by_cases h2 : rw.readerCount = 0 <;>
      simp_all [TMutex.isLocked, mutexLocked]

/-- C3 (witness): with a reader in (`readerCount = 1`) and `w` free, `TryLock`
fails and leaves the lock, `w` included, as it was; on the unlocked lock it
succeeds. -/
theorem tryLock_spec_witness :
    (TryLock ⟨⟨0, 0⟩, 0, 0, 1, 0⟩ = (false, ⟨⟨⟨0, 0⟩, 0, 0, 1, 0⟩, .returned, []⟩)) ∧
    ((TryLock ⟨⟨0, 0⟩, 0, 0, 1, 0⟩).1 = false ∧
      (TryLock ⟨⟨0, 0⟩, 0, 0, 1, 0⟩).2.rw.w = ⟨0, 0⟩ ∧
      ¬ (TryLock ⟨⟨0, 0⟩, 0, 0, 1, 0⟩).2.rw.w.isLocked) ∧
    (TryLock zero).2.rw.readerCount = -rwmutexMaxReaders :=
  ⟨(tryLock_spec ⟨⟨0, 0⟩, 0, 0, 1, 0⟩).1 (by decide),
   (tryLock_spec ⟨⟨0, 0⟩, 0, 0, 1, 0⟩).2.1 rfl (by decide),
   ((tryLock_spec zero).2.2 (by decide)).2.1⟩

/-! ## Lock against TryLock -/

/-- The bias is undone exactly: `AddInt32(&readerCount, -rwmutexMaxReaders) +
rwmutexMaxReaders` is the value `readerCount` had. -/
theorem lock_r_eq (rc : Int) (h : isInt32 rc) :
    wrap32 (AddInt32 rc (-rwmutexMaxReaders) + rwmutexMaxReaders) = rc := by
  unfold isInt32 at h
  unfold AddInt32 wrap32 rwmutexMaxReaders
  omega

/-- When `Lock` suspends, for a `w` whose word is 0 or has the locked bit, and an
empty `writerSem`. -/
theorem lockSuspends_iff (rw : DowngradableRWMutex) (hsem : rw.writerSem = 0)
    (hw : rw.w.state = 0 ∨ rw.w.isLocked) (hrc : isInt32 rw.readerCount) :
    LockSuspends rw = true ↔
      (rw.w.isLocked ∨
        (rw.readerCount ≠ 0 ∧ AddInt32 rw.readerWait rw.readerCount ≠ 0)) := by
  obtain ⟨⟨st, sema⟩, ws, rs, rc, rwt⟩ := rw
  simp only at hsem hw hrc
  subst hsem
  have hr := lock_r_eq rc hrc
  unfold TMutex.isLocked at hw ⊢
  simp only at hw ⊢
  rcases hw with h0 | h1
  · subst h0
    by_cases hc : rc = 0
    · subst hc
      simp [LockSuspends, Lock, Mutex.Lock, CompareAndSwapInt32, hr]
    · by_cases hn : AddInt32 rwt rc = 0
      · simp [LockSuspends, Lock, Mutex.Lock, CompareAndSwapInt32, hr, hc, hn]
      · simp [LockSuspends, Lock, Mutex.Lock, CompareAndSwapInt32, hr, hc, hn,
          runtimeSemacquire]
  · have hne : st ≠ 0 := by omega
    have hodd : ¬ (st % 2 = 0 ∧ st / 4 % 2 = 0) := by omega
    simp [LockSuspends, Lock, Mutex.Lock, CompareAndSwapInt32, hne, hodd, h1]

/-- C4 (counterexample): with `w` free, `readerCount = 1` and `readerWait = -1`,
`TryLock` returns false although `Lock` does not suspend (its addition to
`readerWait` gives 0); and with the word of `w` equal to 2 (unlocked,
`mutexWoken` set) on an otherwise unlocked lock, `TryLock` returns false
although `Lock` does not suspend. In both states the specified condition for
suspending is false as well. -/
theorem tryLock_false_lock_returns :
    ((TryLock ⟨⟨0, 0⟩, 0, 0, 1, -1⟩).1 = false ∧
      Lock ⟨⟨0, 0⟩, 0, 0, 1, -1⟩ = ⟨⟨⟨1, 0⟩, 0, 0, 1 - rwmutexMaxReaders, 0⟩, .returned, []⟩ ∧
      LockSuspends ⟨⟨0, 0⟩, 0, 0, 1, -1⟩ = false ∧
      ¬ LockSuspendsSpec ⟨⟨0, 0⟩, 0, 0, 1, -1⟩) ∧
    ((TryLock ⟨⟨2, 1⟩, 0, 0, 0, 0⟩).1 = false ∧
      Lock ⟨⟨2, 1⟩, 0, 0, 0, 0⟩ = ⟨⟨⟨3, 1⟩, 0, 0, -rwmutexMaxReaders, 0⟩, .returned, []⟩ ∧
      LockSuspends ⟨⟨2, 1⟩, 0, 0, 0, 0⟩ = false ∧
      ¬ LockSuspendsSpec ⟨⟨2, 1⟩, 0, 0, 0, 0⟩) := by
  refine ⟨⟨by decide, by decide, by decide, by decide⟩,
    ⟨by decide, by decide, by decide, by decide⟩⟩

/-- C4 (amended): take a lock with `writerSem` empty, the word of `w` either 0
or with the locked bit set, and `readerCount = 0` or `readerWait + readerCount`
not a multiple of 2^32. Then `TryLock` returns true exactly when `Lock` does not
suspend, and `Lock` suspends exactly when `w` is held or the reader count `r`
observed before the bias is non-zero and `readerWait + r` is non-zero. -/
theorem tryLock_iff_lock_returns (rw : DowngradableRWMutex) (hsem : rw.writerSem = 0)
    (hw : rw.w.state = 0 ∨ rw.w.isLocked) (hrc : isInt32 rw.readerCount)
    (hx : rw.readerCount = 0 ∨ (rw.readerWait + rw.readerCount) % 4294967296 ≠ 0) :
    ((TryLock rw).1 = true ↔ LockSuspends rw = false) ∧
    (LockSuspends rw = true ↔ LockSuspendsSpec rw) := by
  have hs := lockSuspends_iff rw hsem hw hrc
  have hn : AddInt32 rw.readerWait rw.readerCount ≠ 0 ↔
      (rw.readerWait + rw.readerCount) % 4294967296 ≠ 0 := by
    unfold AddInt32 wrap32; omega
  have hloc : rw.w.isLocked → rw.w.state ≠ 0 := by
    unfold TMutex.isLocked; omega
  have hfree : rw.w.state = 0 → ¬ rw.w.isLocked := by
    unfold TMutex.isLocked; omega
  constructor
  · rw [tryLock_eq]
    have hb : LockSuspends rw = false ↔ ¬ LockSuspends rw = true := by simp
    rw [hb, hs]
    by_cases h1 : rw.w.state = 0
    · have := hfree h1
      by_cases h2 : rw.readerCount = 0
      · simp [h1, h2, this]
      · have h3 : (rw.readerWait + rw.readerCount) % 4294967296 ≠ 0 := by
          rcases hx with hx | hx
          · exact absurd hx h2
          · exact hx
        simp [h1, h2, this, hn.mpr h3]
    · have h4 : rw.w.isLocked := by
        rcases hw with hw | hw
        · exact absurd hw h1
        · exact hw
      simp [h1, h4]
  · rw [hs]
    unfold LockSuspendsSpec
    constructor
    · rintro (h | ⟨h1, h2⟩)
      · exact Or.inl h
      · refine Or.inr ⟨h1, ?_⟩
        have := hn.mp h2
        omega
    · rintro (h | ⟨h1, _⟩)
      · exact Or.inl h
      · refine Or.inr ⟨h1, hn.mpr ?_⟩
        rcases hx with hx | hx
        · exact absurd hx h1
        · exact hx

/-- C4 (witness): two readers hold the lock and `w` is free: `TryLock` returns
false and `Lock` suspends. -/
theorem tryLock_iff_lock_returns_witness :
    ((TryLock ⟨⟨0, 0⟩, 0, 0, 2, 0⟩).1 = true ↔ LockSuspends ⟨⟨0, 0⟩, 0, 0, 2, 0⟩ = false) ∧
    (LockSuspends ⟨⟨0, 0⟩, 0, 0, 2, 0⟩ = true ↔ LockSuspendsSpec ⟨⟨0, 0⟩, 0, 0, 2, 0⟩) :=
  tryLock_iff_lock_returns ⟨⟨0, 0⟩, 0, 0, 2, 0⟩ rfl (Or.inl rfl) (by decide)
    (Or.inr (by decide))

/-- Outside those states: whenever `w` is free, `readerCount` is non-zero
and `readerWait + readerCount` wraps to 0, `TryLock` returns false and `Lock`
returns without suspending. -/
theorem lock_returns_when_wait_cancels (rw : DowngradableRWMutex)
    (hw : rw.w.state = 0) (hrc : isInt32 rw.readerCount) (h1 : rw.readerCount ≠ 0)
    (h2 : AddInt32 rw.readerWait rw.readerCount = 0) :
    (TryLock rw).1 = false ∧ (Lock rw).out = .returned := by
  obtain ⟨⟨st, sema⟩, ws, rs, rc, rwt⟩ := rw
  simp only at hw hrc h1 h2
  subst hw
  have hr := lock_r_eq rc hrc
  constructor
  · rw [tryLock_eq]; simp [h1]
  · simp [Lock, Mutex.Lock, CompareAndSwapInt32, hr, h1, h2]

/-! ## TryRLock -/

/-- C5 (counterexample): at `readerCount = 2^31 - 1` the increment overflows:
`TryRLock` returns true and `readerCount` becomes `-2^31`, not `2^31`. -/
theorem tryRLock_wraps :
    TryRLock 1 ⟨⟨0, 0⟩, 0, 0, 2147483647, 0⟩ =
      some (true, ⟨⟨0, 0⟩, 0, 0, -2147483648, 0⟩) ∧
    (-2147483648 : Int) ≠ 2147483647 + 1 := by
  refine ⟨by decide, by decide⟩

/-- C5 (amended): the first iteration of the loop of `TryRLock` already
returns, whatever the fuel, and the call has no suspension point. It returns
false exactly when `readerCount` is negative, with the lock unchanged;
otherwise it returns true with `readerCount` incremented as an `int32` and every
other field unchanged, which is `readerCount + 1` unless `readerCount` is
`2^31 - 1`. -/
theorem tryRLock_spec (rw : DowngradableRWMutex) (fuel : Nat) :
    (∃ b rw1, TryRLock (fuel + 1) rw = some (b, rw1) ∧ (b = false ↔ rw.readerCount < 0)) ∧
    (rw.readerCount < 0 → TryRLock (fuel + 1) rw = some (false, rw)) ∧
    (0 ≤ rw.readerCount →
      TryRLock (fuel + 1) rw =
        some (true, { rw with readerCount := wrap32 (rw.readerCount + 1) })) ∧
    (0 ≤ rw.readerCount → rw.readerCount ≠ 2147483647 → isInt32 rw.readerCount →
      TryRLock (fuel + 1) rw = some (true, { rw with readerCount := rw.readerCount + 1 })) := by
  have hneg : rw.readerCount < 0 → TryRLock (fuel + 1) rw = some (false, rw) := by
    intro h
    simp [TryRLock, h]
  have hpos : 0 ≤ rw.readerCount → TryRLock (fuel + 1) rw =
      some (true, { rw with readerCount := wrap32 (rw.readerCount + 1) }) := by
    intro h
    have h1 : ¬ rw.readerCount < 0 := by omega
    simp [TryRLock, h1, CompareAndSwapInt32]
  refine ⟨?_, hneg, hpos, ?_⟩
  · by_cases h : rw.readerCount < 0
    · exact ⟨false, rw, hneg h, by simp [h]⟩
    · exact ⟨true, _, hpos (by omega), by simp [h]⟩
  · intro h0 hmax hi
    rw [hpos h0]
    have : wrap32 (rw.readerCount + 1) = rw.readerCount + 1 := by
      unfold isInt32 at hi
      unfold wrap32
      omega
    rw [this]

/-- C5 (witness): with a writer announced (`readerCount = -2^30`) `TryRLock`
returns false and the lock is unchanged; with three readers in it returns true
and `readerCount` is 4. -/
theorem tryRLock_spec_witness :
    TryRLock 1 ⟨⟨1, 0⟩, 0, 0, -1073741824, 0⟩ = some (false, ⟨⟨1, 0⟩, 0, 0, -1073741824, 0⟩) ∧
    TryRLock 1 ⟨⟨0, 0⟩, 0, 0, 3, 0⟩ = some (true, ⟨⟨0, 0⟩, 0, 0, 3 + 1, 0⟩) :=
  ⟨(tryRLock_spec ⟨⟨1, 0⟩, 0, 0, -1073741824, 0⟩ 0).2.1 (by decide),
   (tryRLock_spec ⟨⟨0, 0⟩, 0, 0, 3, 0⟩ 0).2.2.2 (by decide) (by decide) (by decide)⟩

/-! ## RUnlock -/

/-- How `RUnlock` ends, by the value `r` it observes after its decrement. -/
theorem rUnlock_out (rw : DowngradableRWMutex) :
    (RUnlock rw).out =
      if AddInt32 rw.readerCount (-1) = -1 ∨
          AddInt32 rw.readerCount (-1) = -rwmutexMaxReaders - 1 then
        .panicked msgRUnlock
      else .returned := by
  have key : (AddInt32 rw.readerCount (-1) < 0 ∧
      (wrap32 (AddInt32 rw.readerCount (-1) + 1) = 0 ∨
        wrap32 (AddInt32 rw.readerCount (-1) + 1) = -rwmutexMaxReaders)) ↔
      (AddInt32 rw.readerCount (-1) = -1 ∨
        AddInt32 rw.readerCount (-1) = -rwmutexMaxReaders - 1) := by
    unfold AddInt32 wrap32 rwmutexMaxReaders
    omega
  unfold RUnlock
  by_cases h1 : AddInt32 rw.readerCount (-1) < 0
  · by_cases h2 : wrap32 (AddInt32 rw.readerCount (-1) + 1) = 0 ∨
        wrap32 (AddInt32 rw.readerCount (-1) + 1) = -rwmutexMaxReaders
    · have h3 := key.mp ⟨h1, h2⟩
      simp only [h1, h2, h3, if_true]
    · have h3 : ¬ (AddInt32 rw.readerCount (-1) = -1 ∨
          AddInt32 rw.readerCount (-1) = -rwmutexMaxReaders - 1) :=
        fun h => h2 (key.mpr h).2
      simp only [h1, h2, h3, if_true, if_false]
      split <;> rfl
  · have h3 : ¬ (AddInt32 rw.readerCount (-1) = -1 ∨
        AddInt32 rw.readerCount (-1) = -rwmutexMaxReaders - 1) :=
      fun h => h1 (key.mpr h).1
    simp only [h1, h3, if_false]

/-- C6: `RUnlock` panics with its message exactly when `readerCount` before the
call is 0 or `-rwmutexMaxReaders`, and for every other starting value it
returns. On the fresh lock, and right after `Lock` on the fresh lock, it
panics. -/
theorem rUnlock_panics_iff (rw : DowngradableRWMutex) (hrc : isInt32 rw.readerCount) :
    ((RUnlock rw).out = .panicked msgRUnlock ↔
      (rw.readerCount = 0 ∨ rw.readerCount = -rwmutexMaxReaders)) ∧
    ((∃ msg, (RUnlock rw).out = .panicked msg) ↔
      (rw.readerCount = 0 ∨ rw.readerCount = -rwmutexMaxReaders)) ∧
    (¬ (rw.readerCount = 0 ∨ rw.readerCount = -rwmutexMaxReaders) →
      (RUnlock rw).out = .returned) ∧
    (RUnlock zero).out = .panicked msgRUnlock ∧
    (Lock zero).out = .returned ∧
    (RUnlock (Lock zero).rw).out = .panicked msgRUnlock := by
  have key : (AddInt32 rw.readerCount (-1) = -1 ∨
        AddInt32 rw.readerCount (-1) = -rwmutexMaxReaders - 1) ↔
      (rw.readerCount = 0 ∨ rw.readerCount = -rwmutexMaxReaders) := by
    unfold isInt32 at hrc
    unfold AddInt32 wrap32 rwmutexMaxReaders
    omega
  refine ⟨?_, ?_, ?_, by decide, by decide, by decide⟩
  · rw [rUnlock_out, ← key]
    split <;> simp_all
  · rw [rUnlock_out, ← key]
    split <;> simp_all
  · intro h
    rw [rUnlock_out, if_neg (fun h2 => h (key.mp h2))]

/-- C6 (witness): a single reader leaves a lock on which no writer waits;
`RUnlock` returns. -/
theorem rUnlock_panics_iff_witness :
    (RUnlock ⟨⟨0, 0⟩, 0, 0, 1, 0⟩).out = .returned :=
  (rUnlock_panics_iff ⟨⟨0, 0⟩, 0, 0, 1, 0⟩ (by decide)).2.2.1 (by decide)

/-- C7 (counterexample): when the value after the decrement is 0 (one reader
leaves) or `-rwmutexMaxReaders` (the last reader leaves under a waiting writer),
`RUnlock` returns; in the second case it posts `writerSem`. -/
theorem rUnlock_returns_at_zero_and_bias :
    (AddInt32 1 (-1) = 0 ∧
      RUnlock ⟨⟨0, 0⟩, 0, 0, 1, 0⟩ = ⟨⟨⟨0, 0⟩, 0, 0, 0, 0⟩, .returned, []⟩) ∧
    (AddInt32 (1 - rwmutexMaxReaders) (-1) = -rwmutexMaxReaders ∧
      RUnlock ⟨⟨1, 0⟩, 0, 0, 1 - rwmutexMaxReaders, 1⟩ =
        ⟨⟨⟨1, 0⟩, 1, 0, -rwmutexMaxReaders, 0⟩, .returned, [.writerSem]⟩) := by
  refine ⟨⟨by decide, by decide⟩, ⟨by decide, by decide⟩⟩

/-- C7 (amended): `RUnlock` raises its fatal error exactly when the value `r` of
`readerCount` it observes after its own decrement is `-1` or
`-rwmutexMaxReaders - 1`, that is when `r + 1` is 0 or `-rwmutexMaxReaders`;
for every other `r` it returns. -/
theorem rUnlock_panics_iff_post (rw : DowngradableRWMutex) :
    ((RUnlock rw).out = .panicked msgRUnlock ↔
      (AddInt32 rw.readerCount (-1) = -1 ∨
        AddInt32 rw.readerCount (-1) = -rwmutexMaxReaders - 1)) ∧
    ((RUnlock rw).out = .returned ↔
      ¬ (AddInt32 rw.readerCount (-1) = -1 ∨
        AddInt32 rw.readerCount (-1) = -rwmutexMaxReaders - 1)) ∧
    (RUnlock rw).rw.readerCount = AddInt32 rw.readerCount (-1) := by
  refine ⟨?_, ?_, ?_⟩
  · rw [rUnlock_out]
    split <;> simp_all
  · rw [rUnlock_out]
    split <;> simp_all
  · unfold RUnlock
    simp only
    split
    · split
      · rfl
      · split <;> rfl
    · rfl

/-! ## Unlock and DowngradeLock -/

/-- The loop posts `readerSem` once for each `i ≤ j < r` and nothing else. -/
theorem releaseReaders_eq (n : Nat) :
    ∀ (i r : Int) (sem : Nat) (acc : List Sem), (r - i).toNat = n →
      releaseReaders i r sem acc =
        (runtimeSemrelease^[n] sem, acc ++ List.replicate n Sem.readerSem) := by
  induction n with
  | zero =>
    intro i r sem acc h
    have hlt : ¬ i < r := by omega
    rw [releaseReaders, if_neg hlt]
    simp
  | succ n ih =>
    intro i r sem acc h
    have hlt : i < r := by omega
    rw [releaseReaders, if_pos hlt, ih (i + 1) r _ _ (by omega)]
    simp [Function.iterate_succ, List.replicate_succ]

/-- On a locked mutex `sync.Mutex.Unlock` does not throw and leaves the locked
bit clear. -/
theorem mutex_unlock_of_locked (m : TMutex) (h : m.isLocked) :
    (Mutex.Unlock m).2 = true ∧ ¬ (Mutex.Unlock m).1.isLocked := by
  obtain ⟨st, sema⟩ := m
  unfold TMutex.isLocked at h
  simp only at h
  have hnew : AddInt32 st (-mutexLocked) % 2 = 0 := by
    unfold AddInt32 wrap32 mutexLocked; omega
  have hold : ¬ wrap32 (AddInt32 st (-mutexLocked) + mutexLocked) % 2 = 0 := by
    unfold AddInt32 wrap32 mutexLocked; omega
  unfold Mutex.Unlock TMutex.isLocked
  simp only
  generalize AddInt32 st (-mutexLocked) = new at hnew hold
  unfold wrap32 at hold ⊢
  split_ifs <;> simp <;> omega

/-- The method `Unlock` with its loop in closed form. -/
theorem unlock_eq (rw : DowngradableRWMutex) :
    Unlock rw =
      if AddInt32 rw.readerCount rwmutexMaxReaders ≥ rwmutexMaxReaders then
        ⟨{ rw with readerCount := AddInt32 rw.readerCount rwmutexMaxReaders },
          .panicked msgUnlock, []⟩
      else
        releaseW
          { rw with
            readerCount := AddInt32 rw.readerCount rwmutexMaxReaders,
            readerSem := runtimeSemrelease^[(AddInt32 rw.readerCount rwmutexMaxReaders).toNat]
              rw.readerSem }
          (List.replicate (AddInt32 rw.readerCount rwmutexMaxReaders).toNat Sem.readerSem) := by
  unfold Unlock
  simp only
  rw [releaseReaders_eq (AddInt32 rw.readerCount rwmutexMaxReaders).toNat 0 _ _ _ (by simp)]
  simp

/-- The method `DowngradeLock` with its loop in closed form. -/
theorem downgradeLock_eq (rw : DowngradableRWMutex) :
    DowngradeLock rw =
      if AddInt32 rw.readerCount (rwmutexMaxReaders + 1) ≥ rwmutexMaxReaders + 1 then
        ⟨{ rw with readerCount := AddInt32 rw.readerCount (rwmutexMaxReaders + 1) },
          .panicked msgDowngradeLock, []⟩
      else
        releaseW
          { rw with
            readerCount := AddInt32 rw.readerCount (rwmutexMaxReaders + 1),
            readerSem :=
              runtimeSemrelease^[(AddInt32 rw.readerCount (rwmutexMaxReaders + 1) - 1).toNat]
                rw.readerSem }
          (List.replicate (AddInt32 rw.readerCount (rwmutexMaxReaders + 1) - 1).toNat
            Sem.readerSem) := by
  unfold DowngradeLock
  simp only
  rw [releaseReaders_eq (AddInt32 rw.readerCount (rwmutexMaxReaders + 1) - 1).toNat 1 _ _ _ rfl]
  simp

/-- What `rw.w.Unlock()` at the end of `Unlock` and `DowngradeLock` changes: only `w`. -/
theorem releaseW_spec (rw : DowngradableRWMutex) (posts : List Sem) :
    (releaseW rw posts).rw = { rw with w := (Mutex.Unlock rw.w).1 } ∧
    (releaseW rw posts).posts = posts ∧
    (releaseW rw posts).out =
      (if (Mutex.Unlock rw.w).2 = true then .returned else .thrown msgMutexUnlock) := by
  unfold releaseW
  rcases h : Mutex.Unlock rw.w with ⟨w1, b⟩
  cases b <;> simp

/-- C8: `Unlock` adds `rwmutexMaxReaders` to `readerCount` giving `r`, and
panics exactly when `r ≥ rwmutexMaxReaders`. Otherwise it posts `readerSem`
exactly `r` times (not at all when `r ≤ 0`), leaves `readerCount = r`, calls
`w.Unlock()`, which releases a held `w`, and leaves `readerWait` and
`writerSem` alone. From the unlocked lock, `Lock; Unlock` gives the unlocked
lock back and a second `Unlock` panics. -/
theorem unlock_spec (rw : DowngradableRWMutex) :
    ((Unlock rw).out = .panicked msgUnlock ↔
      AddInt32 rw.readerCount rwmutexMaxReaders ≥ rwmutexMaxReaders) ∧
    ((∃ msg, (Unlock rw).out = .panicked msg) ↔
      AddInt32 rw.readerCount rwmutexMaxReaders ≥ rwmutexMaxReaders) ∧
    (Unlock rw).rw.readerCount = AddInt32 rw.readerCount rwmutexMaxReaders ∧
    (AddInt32 rw.readerCount rwmutexMaxReaders < rwmutexMaxReaders →
      (Unlock rw).posts =
        List.replicate (AddInt32 rw.readerCount rwmutexMaxReaders).toNat Sem.readerSem ∧
      (Unlock rw).rw.readerSem =
        runtimeSemrelease^[(AddInt32 rw.readerCount rwmutexMaxReaders).toNat] rw.readerSem ∧
      (AddInt32 rw.readerCount rwmutexMaxReaders ≤ 0 →
        (Unlock rw).posts = [] ∧ (Unlock rw).rw.readerSem = rw.readerSem) ∧
      (Unlock rw).rw.w = (Mutex.Unlock rw.w).1 ∧
      (rw.w.isLocked → ¬ (Unlock rw).rw.w.isLocked ∧ (Unlock rw).out = .returned) ∧
      (Unlock rw).rw.readerWait = rw.readerWait ∧
      (Unlock rw).rw.writerSem = rw.writerSem) ∧
    Lock zero = ⟨⟨⟨1, 0⟩, 0, 0, -rwmutexMaxReaders, 0⟩, .returned, []⟩ ∧
    Unlock (Lock zero).rw = ⟨zero, .returned, []⟩ ∧
    (Unlock (Unlock (Lock zero).rw).rw).out = .panicked msgUnlock := by
  refine ⟨?_, ?_, ?_, ?_, by decide, ?_, ?_⟩
  · rw [unlock_eq]
    split
    · simp_all
    · rename_i h
      have := (releaseW_spec
        { rw with
          readerCount := AddInt32 rw.readerCount rwmutexMaxReaders,
          readerSem := runtimeSemrelease^[(AddInt32 rw.readerCount rwmutexMaxReaders).toNat]
            rw.readerSem }
        (List.replicate (AddInt32 rw.readerCount rwmutexMaxReaders).toNat Sem.readerSem)).2.2
      rw [this]
      split <;> simp [h]
  · rw [unlock_eq]
    split
    · simp_all
    · rename_i h
      have := (releaseW_spec
        { rw with
          readerCount := AddInt32 rw.readerCount rwmutexMaxReaders,
          readerSem := runtimeSemrelease^[(AddInt32 rw.readerCount rwmutexMaxReaders).toNat]
            rw.readerSem }
        (List.replicate (AddInt32 rw.readerCount rwmutexMaxReaders).toNat Sem.readerSem)).2.2
      rw [this]
      split <;> simp [h]
  · rw [unlock_eq]
    split
    · rfl
    · rw [(releaseW_spec _ _).1]
  · intro h
    have hn : ¬ AddInt32 rw.readerCount rwmutexMaxReaders ≥ rwmutexMaxReaders := by omega
    rw [unlock_eq, if_neg hn]
    obtain ⟨h1, h2, h3⟩ := releaseW_spec
        { rw with
          readerCount := AddInt32 rw.readerCount rwmutexMaxReaders,
          readerSem := runtimeSemrelease^[(AddInt32 rw.readerCount rwmutexMaxReaders).toNat]
            rw.readerSem }
        (List.replicate (AddInt32 rw.readerCount rwmutexMaxReaders).toNat Sem.readerSem)
    rw [h1, h2, h3]
    refine ⟨rfl, rfl, ?_, rfl, ?_, rfl, rfl⟩
    · intro hle
      have : (AddInt32 rw.readerCount rwmutexMaxReaders).toNat = 0 := by omega
      simp [this]
    · intro hl
      have := mutex_unlock_of_locked rw.w hl
      exact ⟨this.2, by simp [this.1]⟩
  · rw [unlock_eq]; decide
  · rw [unlock_eq]; decide

/-- C8 (witness): a writer holds the lock and two readers are parked
(`readerCount = 2 - 2^30`): `Unlock` posts `readerSem` twice and releases `w`. -/
theorem unlock_spec_witness :
    (Unlock ⟨⟨1, 0⟩, 0, 0, 2 - rwmutexMaxReaders, 0⟩).posts = [Sem.readerSem, Sem.readerSem] ∧
    (Unlock ⟨⟨1, 0⟩, 0, 0, 2 - rwmutexMaxReaders, 0⟩).rw.readerSem = 2 ∧
    ¬ (Unlock ⟨⟨1, 0⟩, 0, 0, 2 - rwmutexMaxReaders, 0⟩).rw.w.isLocked ∧
    (Unlock ⟨⟨1, 0⟩, 0, 0, 2 - rwmutexMaxReaders, 0⟩).out = .returned :=
  have h := (unlock_spec ⟨⟨1, 0⟩, 0, 0, 2 - rwmutexMaxReaders, 0⟩).2.2.2.1 (by decide)
  ⟨h.1, h.2.1, (h.2.2.2.2.1 (by decide)).1, (h.2.2.2.2.1 (by decide)).2⟩

/-- C9 (counterexample): with `2^30 - 1` readers in and no writer bias
(`readerCount = 2^30 - 1 ≥ 0`), the addition of `rwmutexMaxReaders + 1` wraps to
`-2^31`, so the test `r ≥ rwmutexMaxReaders + 1` fails and `DowngradeLock` does
not panic: with `w` held it returns, leaving `readerCount = -2^31`; with `w`
free it ends in the throw of `sync.Mutex.Unlock`. -/
theorem downgradeLock_wraps_without_bias :
    (0 : Int) ≤ 1073741823 ∧ (1073741823 : Int) < rwmutexMaxReaders ∧
    AddInt32 1073741823 (rwmutexMaxReaders + 1) = -2147483648 ∧
    ¬ AddInt32 1073741823 (rwmutexMaxReaders + 1) ≥ rwmutexMaxReaders + 1 ∧
    DowngradeLock ⟨⟨1, 0⟩, 0, 0, 1073741823, 0⟩ =
      ⟨⟨⟨0, 0⟩, 0, 0, -2147483648, 0⟩, .returned, []⟩ ∧
    (DowngradeLock ⟨⟨0, 0⟩, 0, 0, 1073741823, 0⟩).out = .thrown msgMutexUnlock := by
  refine ⟨by decide, by decide, by decide, by decide, ?_, ?_⟩
  · rw [downgradeLock_eq]; decide
  · rw [downgradeLock_eq]; decide

/-- C9 (amended): `DowngradeLock` adds `rwmutexMaxReaders + 1` to `readerCount`
as an `int32` giving `r`, and panics exactly when `r ≥ rwmutexMaxReaders + 1`,
that is exactly when `0 ≤ readerCount < 2^30 - 1`: no writer bias is in
`readerCount` and the addition does not wrap. Called with `w` held and
`readerCount = k - rwmutexMaxReaders` for `k` parked readers, it does not panic,
leaves `readerCount = k + 1`, posts `readerSem` exactly `k = r - 1` times,
releases `w`, and leaves `readerWait` and `writerSem` alone. -/
theorem downgradeLock_spec (rw : DowngradableRWMutex) :
    ((DowngradeLock rw).out = .panicked msgDowngradeLock ↔
      AddInt32 rw.readerCount (rwmutexMaxReaders + 1) ≥ rwmutexMaxReaders + 1) ∧
    ((∃ msg, (DowngradeLock rw).out = .panicked msg) ↔
      AddInt32 rw.readerCount (rwmutexMaxReaders + 1) ≥ rwmutexMaxReaders + 1) ∧
    (DowngradeLock rw).rw.readerCount = AddInt32 rw.readerCount (rwmutexMaxReaders + 1) ∧
    (isInt32 rw.readerCount →
      (AddInt32 rw.readerCount (rwmutexMaxReaders + 1) ≥ rwmutexMaxReaders + 1 ↔
        (0 ≤ rw.readerCount ∧ rw.readerCount < rwmutexMaxReaders - 1))) ∧
    (∀ k : Nat, (k : Int) < rwmutexMaxReaders → rw.readerCount = k - rwmutexMaxReaders →
      rw.w.isLocked →
      AddInt32 rw.readerCount (rwmutexMaxReaders + 1) = k + 1 ∧
      (DowngradeLock rw).out = .returned ∧
      (DowngradeLock rw).rw.readerCount = k + 1 ∧
      (DowngradeLock rw).posts = List.replicate k Sem.readerSem ∧
      (DowngradeLock rw).rw.readerSem = runtimeSemrelease^[k] rw.readerSem ∧
      (DowngradeLock rw).rw.w = (Mutex.Unlock rw.w).1 ∧
      ¬ (DowngradeLock rw).rw.w.isLocked ∧
      (DowngradeLock rw).rw.readerWait = rw.readerWait ∧
      (DowngradeLock rw).rw.writerSem = rw.writerSem) := by
  refine ⟨?_, ?_, ?_, ?_, ?_⟩
  · rw [downgradeLock_eq]
    split
    · simp_all
    · rename_i h
      rw [(releaseW_spec _ _).2.2]
      split <;> simp [h]
  · rw [downgradeLock_eq]
    split
    · simp_all
    · rename_i h
      rw [(releaseW_spec _ _).2.2]
      split <;> simp [h]
  · rw [downgradeLock_eq]
    split
    · rfl
    · rw [(releaseW_spec _ _).1]
  · intro hi
    unfold isInt32 at hi
    unfold AddInt32 wrap32 rwmutexMaxReaders
    omega
  · intro k hk hrc hl
    have hr : AddInt32 rw.readerCount (rwmutexMaxReaders + 1) = k + 1 := by
      rw [hrc]
      unfold AddInt32 wrap32
      unfold rwmutexMaxReaders at hk ⊢
      omega
    have hn : ¬ AddInt32 rw.readerCount (rwmutexMaxReaders + 1) ≥ rwmutexMaxReaders + 1 := by
      rw [hr]; omega
    have hk1 : ((k : Int) + 1 - 1).toNat = k := by omega
    have hu := mutex_unlock_of_locked rw.w hl
    rw [downgradeLock_eq, if_neg hn, hr, hk1]
    obtain ⟨h1, h2, h3⟩ := releaseW_spec
        { rw with
          readerCount := (k : Int) + 1,
          readerSem := runtimeSemrelease^[k] rw.readerSem }
        (List.replicate k Sem.readerSem)
    rw [h1, h2, h3]
    exact ⟨rfl, by simp [hu.1], rfl, rfl, rfl, rfl, hu.2, rfl, rfl⟩

/-- C9 (witness): a writer holds the lock and two readers are parked
(`readerCount = 2 - 2^30`): `DowngradeLock` leaves `readerCount = 3`, posts
`readerSem` twice and releases `w`. -/
theorem downgradeLock_spec_witness :
    (DowngradeLock ⟨⟨1, 0⟩, 0, 0, 2 - rwmutexMaxReaders, 0⟩).out = .returned ∧
    (DowngradeLock ⟨⟨1, 0⟩, 0, 0, 2 - rwmutexMaxReaders, 0⟩).rw.readerCount = 3 ∧
    (DowngradeLock ⟨⟨1, 0⟩, 0, 0, 2 - rwmutexMaxReaders, 0⟩).posts =
      [Sem.readerSem, Sem.readerSem] ∧
    (DowngradeLock ⟨⟨1, 0⟩, 0, 0, 2 - rwmutexMaxReaders, 0⟩).rw.readerSem = 2 ∧
    ¬ (DowngradeLock ⟨⟨1, 0⟩, 0, 0, 2 - rwmutexMaxReaders, 0⟩).rw.w.isLocked :=
  have h := (downgradeLock_spec ⟨⟨1, 0⟩, 0, 0, 2 - rwmutexMaxReaders, 0⟩).2.2.2.2 2
    (by decide) (by decide) (by decide)
  ⟨h.2.1, h.2.2.1, h.2.2.2.1, h.2.2.2.2.1, h.2.2.2.2.2.2.1⟩

/-! ## The downgrade round trip -/

/-- C10 (counterexample): from the unlocked lock, A's `Lock; DowngradeLock`,
B's `TryRLock` (true), C's `TryLock` (false, lock unchanged) and A's `RUnlock`
leave `readerCount = 1`, B's read lock; C's `Lock` then announces itself and
suspends on `writerSem`. -/
theorem lock_parks_after_single_rUnlock :
    Lock zero = ⟨⟨⟨1, 0⟩, 0, 0, -rwmutexMaxReaders, 0⟩, .returned, []⟩ ∧
    DowngradeLock (Lock zero).rw = ⟨⟨⟨0, 0⟩, 0, 0, 1, 0⟩, .returned, []⟩ ∧
    TryRLock 1 (DowngradeLock (Lock zero).rw).rw = some (true, afterDowngradeAndTryRLock) ∧
    TryLock afterDowngradeAndTryRLock = (false, ⟨afterDowngradeAndTryRLock, .returned, []⟩) ∧
    RUnlock afterDowngradeAndTryRLock = ⟨⟨⟨0, 0⟩, 0, 0, 1, 0⟩, .returned, []⟩ ∧
    Lock (RUnlock afterDowngradeAndTryRLock).rw =
      ⟨⟨⟨1, 0⟩, 0, 0, 1 - rwmutexMaxReaders, 1⟩, .parked .writerSem, []⟩ := by
  refine ⟨by decide, ?_, ?_, by decide, by decide, by decide⟩
  · rw [downgradeLock_eq]; decide
  · rw [downgradeLock_eq]; decide

/-- C10 (amended): from the unlocked lock, after A's `Lock; DowngradeLock`, B's
`TryRLock` returns true and C's `TryLock` returns false leaving the lock as it
was. After the `RUnlock` of both readers, A and B, the lock is unlocked again
and C's `Lock` returns with the exclusive hold without suspending. If C calls
`Lock` after A's `RUnlock` alone, it suspends on `writerSem` until B's
`RUnlock`, which posts `writerSem` once; the pending `runtimeSemacquire` then
succeeds and leaves the lock write-held. -/
theorem downgrade_round_trip :
    (Lock zero).out = .returned ∧
    (DowngradeLock (Lock zero).rw).out = .returned ∧
    TryRLock 1 (DowngradeLock (Lock zero).rw).rw = some (true, afterDowngradeAndTryRLock) ∧
    TryLock afterDowngradeAndTryRLock = (false, ⟨afterDowngradeAndTryRLock, .returned, []⟩) ∧
    RUnlock (RUnlock afterDowngradeAndTryRLock).rw = ⟨zero, .returned, []⟩ ∧
    Lock (RUnlock (RUnlock afterDowngradeAndTryRLock).rw).rw =
      ⟨⟨⟨1, 0⟩, 0, 0, -rwmutexMaxReaders, 0⟩, .returned, []⟩ ∧
    (Lock (RUnlock afterDowngradeAndTryRLock).rw).out = .parked .writerSem ∧
    RUnlock (Lock (RUnlock afterDowngradeAndTryRLock).rw).rw =
      ⟨⟨⟨1, 0⟩, 1, 0, -rwmutexMaxReaders, 0⟩, .returned, [.writerSem]⟩ ∧
    runtimeSemacquire (RUnlock (Lock (RUnlock afterDowngradeAndTryRLock).rw).rw).rw.writerSem =
      some 0 := by
  refine ⟨by decide, ?_, ?_, by decide, by decide, by decide, by decide, by decide, by decide⟩
  · rw [downgradeLock_eq]; decide
  · rw [downgradeLock_eq]; decide

end Sync.DowngradableRWMutex

namespace Sync.Interleaving

open DowngradableRWMutex

/-! ## Counting lemmas -/

theorem total_nil (f : PC → Int) : total f [] = 0 := rfl

theorem total_cons (f : PC → Int) (p : PC) (l : List PC) :
    total f (p :: l) = f p + total f l := by
  simp [total]

theorem total_set (f : PC → Int) (l : List PC) (t : Nat) (h : t < l.length) (p : PC) :
    total f (l.set t p) + f (l.get ⟨t, h⟩) = total f l + f p := by
  induction l generalizing t with
  | nil => simp at h
  | cons a l ih =>
    cases t with
    | zero =>
      simp only [List.set_cons_zero, total_cons, List.get_eq_getElem, List.getElem_cons_zero]
      omega
    | succ t =>
      have h2 : t < l.length := by simpa using h
      have := ih t h2
      simp only [List.set_cons_succ, total_cons, List.get_eq_getElem,
        List.getElem_cons_succ] at this ⊢
      omega

theorem total_nonneg (f : PC → Int) (hf : ∀ p, 0 ≤ f p) (l : List PC) : 0 ≤ total f l := by
  induction l with
  | nil => simp [total_nil]
  | cons a l ih =>
    rw [total_cons]
    have := hf a
    omega

theorem total_eq_zero_of (f g : PC → Int) (hg : ∀ p, 0 ≤ g p)
    (hfg : ∀ p, g p = 0 → f p = 0) (l : List PC) (h : total g l = 0) : total f l = 0 := by
  induction l with
  | nil => simp [total_nil]
  | cons a l ih =>
    rw [total_cons] at h ⊢
    have h1 := hg a
    have h2 := total_nonneg g hg l
    have h3 : g a = 0 := by omega
    have h4 : total g l = 0 := by omega
    rw [hfg a h3, ih h4]
    simp

theorem total_get_le (f : PC → Int) (hf : ∀ p, 0 ≤ f p) (l : List PC) (t : Nat)
    (h : t < l.length) : f (l.get ⟨t, h⟩) ≤ total f l := by
  induction l generalizing t with
  | nil => simp at h
  | cons a l ih =>
    cases t with
    | zero =>
      have := total_nonneg f hf l
      simp only [total_cons, List.get_eq_getElem, List.getElem_cons_zero]
      omega
    | succ t =>
      have h2 : t < l.length := by simpa using h
      have := ih t h2
      have := hf a
      simp only [total_cons, List.get_eq_getElem, List.getElem_cons_succ] at *
      omega

theorem readers_eq (l : List PC) :
    (readers l : Int) = total cRP l + total cRd l + total cDL l := by
  induction l with
  | nil => simp [readers, total_nil]
  | cons a l ih =>
    simp only [total_cons]
    unfold readers at ih ⊢
    rw [List.countP_cons]
    cases a <;> simp [PC.isReader, cRP, cRd, cDL] <;> omega

theorem total_add (f g : PC → Int) (l : List PC) :
    total (fun p => f p + g p) l = total f l + total g l := by
  induction l with
  | nil => simp [total_nil]
  | cons a l ih =>
    rw [total_cons, total_cons, total_cons, ih]
    omega

theorem census_facts (l : List PC) : (census l).Facts := by
  unfold Census.Facts census
  refine ⟨?_, ?_, ?_, ?_, ?_, ?_, ?_, ?_, ?_, ?_, ?_, ?_, ?_, ?_, ?_, ?_⟩
  · exact total_nonneg _ (fun p => by cases p <;> simp [cLH]) l
  · exact total_nonneg _ (fun p => by cases p <;> simp [cLA]) l
  · exact total_nonneg _ (fun p => by cases p <;> simp [cLP]) l
  · exact total_nonneg _ (fun p => by cases p <;> simp [cWr]) l
  · exact total_nonneg _ (fun p => by cases p <;> simp [cTH]) l
  · exact total_nonneg _ (fun p => by cases p <;> simp [cTF]) l
  · exact total_nonneg _ (fun p => by cases p <;> simp [cUL]) l
  · exact total_nonneg _ (fun p => by cases p <;> simp [cDL]) l
  · exact total_nonneg _ (fun p => by cases p <;> simp [cRP]) l
  · exact total_nonneg _ (fun p => by cases p <;> simp [cRd]) l
  · exact total_nonneg _ (fun p => by cases p <;> simp [cU]) l
  · exact total_nonneg _ (fun p => by cases p <;> simp [cQ]) l
  · exact total_nonneg _ (fun p => by cases p <;> simp [pend]) l
  · exact total_nonneg _ (fun p => by cases p <;> simp [cBad]; split <;> simp) l
  · intro h
    have h1 := total_nonneg cUL (fun p => by cases p <;> simp [cUL]) l
    have h2 := total_nonneg cDL (fun p => by cases p <;> simp [cDL]) l
    have h3 : total (fun p => cUL p + cDL p) l = 0 := by
      rw [total_add]; simpa using h
    exact total_eq_zero_of pend (fun p => cUL p + cDL p)
      (fun p => by cases p <;> simp [cUL, cDL])
      (fun p => by cases p <;> simp [cUL, cDL, pend]) l h3
  · intro h
    exact total_eq_zero_of vLA cLA (fun p => by cases p <;> simp [cLA])
      (fun p => by cases p <;> simp [cLA, vLA]) l h

theorem inv_init (n : Nat) : Inv (System.init n) := by
  have hz : ∀ f : PC → Int, f PC.idle = 0 → total f (List.replicate n PC.idle) = 0 := by
    intro f hf
    induction n with
    | zero => simp [total_nil]
    | succ n ih => rw [List.replicate_succ, total_cons, ih, hf]; rfl
  unfold Inv InvC System.init census
  simp only [hz cLH rfl, hz cLA rfl, hz cLP rfl, hz cWr rfl, hz cTH rfl, hz cTF rfl,
    hz cUL rfl, hz cDL rfl, hz cRP rfl, hz cRd rfl, hz cU rfl, hz cQ rfl, hz pend rfl,
    hz vLA rfl, hz cBad rfl]
  simp [DowngradableRWMutex.zero, TMutex.zero]

/-- The invariant by cases on which thread, if any, has its bias in
`readerCount`: none, one between the two additions of `Lock`, one parked in
`Lock` before or after the post of `writerSem` is decided, one in the write
region. -/
theorem InvC.phase {rw : DowngradableRWMutex} {c : Census} (h : InvC rw c) (h0 : c.Facts) :
    (c.nLA = 0 ∧ c.nLP = 0 ∧ c.nWr = 0 ∧
      (rw.readerSem : Int) + c.pnd = c.nRP ∧ rw.readerWait = 0 ∧ c.nU = 0 ∧ c.nQ = 0 ∧
      rw.writerSem = 0) ∨
    (c.nLA = 1 ∧ c.nLP = 0 ∧ c.nWr = 0 ∧ c.nLH = 0 ∧ c.nTH = 0 ∧ c.nTF = 0 ∧ c.nUL = 0 ∧
      c.nDL = 0 ∧ c.pnd = 0 ∧
      rw.readerWait + c.vla = c.nRd + c.nU + rw.readerSem ∧ rw.readerWait ≤ 0 ∧ c.nQ = 0 ∧
      rw.writerSem = 0 ∧ c.vla < 1073741824) ∨
    (c.nLA = 0 ∧ c.nLP = 1 ∧ c.nWr = 0 ∧ c.nLH = 0 ∧ c.nTH = 0 ∧ c.nTF = 0 ∧ c.nUL = 0 ∧
      c.nDL = 0 ∧ c.pnd = 0 ∧
      rw.readerWait = c.nRd + c.nU + rw.readerSem ∧ c.nQ + (rw.writerSem : Int) ≤ 1 ∧
      ¬ (c.nQ + (rw.writerSem : Int) = 1) ∧ rw.readerWait < 1073741824) ∨
    (c.nLA = 0 ∧ c.nLP = 1 ∧ c.nWr = 0 ∧ c.nLH = 0 ∧ c.nTH = 0 ∧ c.nTF = 0 ∧ c.nUL = 0 ∧
      c.nDL = 0 ∧ c.pnd = 0 ∧
      rw.readerWait = c.nRd + c.nU + rw.readerSem ∧ c.nQ + (rw.writerSem : Int) = 1 ∧
      rw.readerWait = 0) ∨
    (c.nLA = 0 ∧ c.nLP = 0 ∧ c.nWr = 1 ∧ c.nLH = 0 ∧ c.nTH = 0 ∧ c.nTF = 0 ∧ c.nUL = 0 ∧
      c.nDL = 0 ∧ c.pnd = 0 ∧
      rw.readerWait = 0 ∧ c.nRd = 0 ∧ c.nU = 0 ∧ c.nQ = 0 ∧ rw.writerSem = 0 ∧
      rw.readerSem = 0) := by
  obtain ⟨-, h2, -, -, -, h6, h7, h8, h9⟩ := h
  obtain ⟨f1, f2, f3, f4, f5, f6, f7, f8, -, -, -, -, -, -, f15, -⟩ := h0
  by_cases a : c.nLA = 1
  · have := h7 a
    have := f15 (by omega)
    right; left; omega
  · by_cases b : c.nLP = 1
    · have := h8 b
      have := f15 (by omega)
      by_cases d : c.nQ + (rw.writerSem : Int) = 1
      · have := (h8 b).2.2.1 d
        right; right; right; left; omega
      · right; right; left; omega
    · by_cases d : c.nWr = 1
      · have := h9 d
        have := f15 (by omega)
        right; right; right; right; omega
      · have := h6 (by omega)
        left; omega

/-! ## Every step keeps the invariant -/

theorem census_move (l : List PC) (t : Nat) (h : t < l.length) (q : PC) :
    census (l.set t q) = (census l).move (l.get ⟨t, h⟩) q := by
  unfold census Census.move
  simp only [Census.mk.injEq]
  refine ⟨?_, ?_, ?_, ?_, ?_, ?_, ?_, ?_, ?_, ?_, ?_, ?_, ?_, ?_, ?_⟩
  · have := total_set cLH l t h q; omega
  · have := total_set cLA l t h q; omega
  · have := total_set cLP l t h q; omega
  · have := total_set cWr l t h q; omega
  · have := total_set cTH l t h q; omega
  · have := total_set cTF l t h q; omega
  · have := total_set cUL l t h q; omega
  · have := total_set cDL l t h q; omega
  · have := total_set cRP l t h q; omega
  · have := total_set cRd l t h q; omega
  · have := total_set cU l t h q; omega
  · have := total_set cQ l t h q; omega
  · have := total_set pend l t h q; omega
  · have := total_set vLA l t h q; omega
  · have := total_set cBad l t h q; omega

theorem tmutex_tryLock_free (m : TMutex) (h : m.state = 0) :
    m.TryLock = (true, ⟨1, m.sema⟩) := by
  simp [TMutex.TryLock, CompareAndSwapInt32, h, mutexLocked]

theorem tmutex_tryLock_busy (m : TMutex) (h : m.state ≠ 0) : m.TryLock = (false, m) := by
  simp [TMutex.TryLock, CompareAndSwapInt32, h]

theorem mutex_lock_free (m : TMutex) (h : m.state = 0) :
    Mutex.Lock m = (⟨1, m.sema⟩, true) := by
  simp [Mutex.Lock, CompareAndSwapInt32, h, mutexLocked]

theorem mutex_lock_held (m : TMutex) (h : m.state = 1) : (Mutex.Lock m).2 = false := by
  simp [Mutex.Lock, CompareAndSwapInt32, h]

theorem mutex_unlock_held (m : TMutex) (h : m.state = 1) :
    Mutex.Unlock m = (⟨0, m.sema⟩, true) := by
  obtain ⟨st, sema⟩ := m
  simp only at h
  subst h
  exact unlock_of_tryLocked sema

theorem step_idle_rLock (rw : DowngradableRWMutex) (c : Census) (q : DowngradableRWMutex × PC)
    (hinv : InvC rw c) (fo : c.Facts)
    (hq : q = (let rc := AddInt32 rw.readerCount 1
       ({ rw with readerCount := rc }, if rc < 0 then PC.rLockParked else PC.reading)))
    (fn : (c.move PC.idle q.2).Facts) (hb : (c.move PC.idle q.2).cap) :
    InvC q.1 (c.move PC.idle q.2) := by
  have ph := hinv.phase fo
  obtain ⟨i1, i2, i3, i4, i5, -⟩ := hinv
  subst hq
  unfold Census.Facts at fo fn
  unfold Census.cap at hb
  unfold InvC
  have hw : AddInt32 rw.readerCount 1 = rw.readerCount + 1 := by
    unfold AddInt32 wrap32; omega
  simp only [hw] at fn hb ⊢
  split_ifs at fn hb ⊢ with hc <;>
    simp only [Census.move, cLH, cLA, cLP, cWr, cTH, cTF, cUL, cDL, cRP, cRd, cU, cQ, pend,
      vLA, cBad] at fn hb ⊢ <;>
    rcases ph with h | h | h | h | h <;> omega

theorem step_tryRLock_load (rw : DowngradableRWMutex) (c : Census) (p : PC)
    (q : DowngradableRWMutex × PC) (hinv : InvC rw c) (fo : c.Facts)
    (hp : p = PC.idle ∨ p = PC.tryRLockHead)
    (hq : q = (rw, if rw.readerCount < 0 then PC.idle else PC.tryRLockLoaded rw.readerCount))
    (fn : (c.move p q.2).Facts) (hb : (c.move p q.2).cap) :
    InvC q.1 (c.move p q.2) := by
  have ph := hinv.phase fo
  obtain ⟨i1, i2, i3, i4, i5, -⟩ := hinv
  subst hq
  unfold Census.Facts at fo fn
  unfold Census.cap at hb
  unfold InvC
  simp only at fn hb ⊢
  rcases hp with rfl | rfl <;>
    split_ifs at fn hb ⊢ with hc <;>
    simp only [Census.move, cLH, cLA, cLP, cWr, cTH, cTF, cUL, cDL, cRP, cRd, cU, cQ, pend,
      vLA, cBad, hc, if_false] at fn hb ⊢ <;>
    rcases ph with h | h | h | h | h <;> omega

theorem step_idle_tryLock (rw : DowngradableRWMutex) (c : Census)
    (q : DowngradableRWMutex × PC) (hinv : InvC rw c) (fo : c.Facts)
    (hq : q = (match rw.w.TryLock with
       | (true, w1) => ({ rw with w := w1 }, PC.tryLockHasW)
       | (false, _) => (rw, PC.idle)))
    (fn : (c.move PC.idle q.2).Facts) (hb : (c.move PC.idle q.2).cap) :
    InvC q.1 (c.move PC.idle q.2) := by
  have ph := hinv.phase fo
  obtain ⟨i1, i2, i3, i4, i5, -⟩ := hinv
  unfold Census.Facts at fo
  by_cases hw : rw.w.state = 0
  · rw [tmutex_tryLock_free _ hw] at hq
    subst hq
    unfold Census.Facts at fn
    unfold Census.cap at hb
    unfold InvC
    simp only [Census.move, cLH, cLA, cLP, cWr, cTH, cTF, cUL, cDL, cRP, cRd, cU, cQ, pend,
      vLA, cBad] at fn hb ⊢
    rcases ph with h | h | h | h | h <;> omega
  · rw [tmutex_tryLock_busy _ hw] at hq
    subst hq
    unfold Census.Facts at fn
    unfold Census.cap at hb
    unfold InvC
    simp only [Census.move, cLH, cLA, cLP, cWr, cTH, cTF, cUL, cDL, cRP, cRd, cU, cQ, pend,
      vLA, cBad] at fn hb ⊢
    rcases ph with h | h | h | h | h <;> omega

theorem step_idle_lock (rw : DowngradableRWMutex) (c : Census)
    (q : DowngradableRWMutex × PC) (hinv : InvC rw c) (fo : c.Facts)
    (hq : q ∈ (match Mutex.Lock rw.w with
       | (w1, true) => [({ rw with w := w1 }, PC.lockHasW)]
       | (_, false) => []))
    (fn : (c.move PC.idle q.2).Facts) (hb : (c.move PC.idle q.2).cap) :
    InvC q.1 (c.move PC.idle q.2) := by
  have ph := hinv.phase fo
  obtain ⟨i1, i2, i3, i4, i5, -⟩ := hinv
  unfold Census.Facts at fo
  by_cases hw : rw.w.state = 0
  · rw [mutex_lock_free _ hw] at hq
    simp only [List.mem_singleton] at hq
    subst hq
    unfold Census.Facts at fn
    unfold Census.cap at hb
    unfold InvC
    simp only [Census.move, cLH, cLA, cLP, cWr, cTH, cTF, cUL, cDL, cRP, cRd, cU, cQ, pend,
      vLA, cBad] at fn hb ⊢
    rcases ph with h | h | h | h | h <;> omega
  · have h1 : rw.w.state = 1 := by omega
    have h2 := mutex_lock_held _ h1
    rcases hl : Mutex.Lock rw.w with ⟨w1, b⟩
    rw [hl] at h2 hq
    simp only at h2
    subst h2
    simp only [List.not_mem_nil] at hq

theorem step_idle (rw : DowngradableRWMutex) (c : Census) (q : DowngradableRWMutex × PC)
    (hinv : InvC rw c) (fo : c.Facts) (hq : q ∈ next rw PC.idle)
    (fn : (c.move PC.idle q.2).Facts) (hb : (c.move PC.idle q.2).cap) :
    InvC q.1 (c.move PC.idle q.2) := by
  simp only [next, List.mem_append, List.mem_cons, List.mem_singleton, List.not_mem_nil,
    or_false] at hq
  rcases hq with (hq | hq | hq) | hq
  · exact step_idle_rLock rw c q hinv fo hq fn hb
  · exact step_tryRLock_load rw c PC.idle q hinv fo (Or.inl rfl) hq fn hb
  · exact step_idle_tryLock rw c q hinv fo hq fn hb
  · exact step_idle_lock rw c q hinv fo hq fn hb

theorem step_tryRLockHead (rw : DowngradableRWMutex) (c : Census)
    (q : DowngradableRWMutex × PC) (hinv : InvC rw c) (fo : c.Facts)
    (hq : q ∈ next rw PC.tryRLockHead)
    (fn : (c.move PC.tryRLockHead q.2).Facts) (hb : (c.move PC.tryRLockHead q.2).cap) :
    InvC q.1 (c.move PC.tryRLockHead q.2) := by
  simp only [next, List.mem_singleton] at hq
  exact step_tryRLock_load rw c PC.tryRLockHead q hinv fo (Or.inr rfl) hq fn hb

theorem census_has (l : List PC) (t : Nat) (h : t < l.length) :
    (census l).Has (l.get ⟨t, h⟩) := by
  unfold Census.Has census
  refine ⟨?_, ?_, ?_, ?_, ?_, ?_, ?_, ?_, ?_, ?_, ?_, ?_, ?_, ?_⟩
  · exact total_get_le _ (fun p => by cases p <;> simp [cLH]) l t h
  · exact total_get_le _ (fun p => by cases p <;> simp [cLA]) l t h
  · exact total_get_le _ (fun p => by cases p <;> simp [cLP]) l t h
  · exact total_get_le _ (fun p => by cases p <;> simp [cWr]) l t h
  · exact total_get_le _ (fun p => by cases p <;> simp [cTH]) l t h
  · exact total_get_le _ (fun p => by cases p <;> simp [cTF]) l t h
  · exact total_get_le _ (fun p => by cases p <;> simp [cUL]) l t h
  · exact total_get_le _ (fun p => by cases p <;> simp [cDL]) l t h
  · exact total_get_le _ (fun p => by cases p <;> simp [cRP]) l t h
  · exact total_get_le _ (fun p => by cases p <;> simp [cRd]) l t h
  · exact total_get_le _ (fun p => by cases p <;> simp [cU]) l t h
  · exact total_get_le _ (fun p => by cases p <;> simp [cQ]) l t h
  · exact total_get_le _ (fun p => by cases p <;> simp [pend]) l t h
  · exact total_get_le _ (fun p => by cases p <;> simp [cBad]; split <;> simp) l t h

theorem step_tryRLockLoaded (v : Int) (rw : DowngradableRWMutex) (c : Census)
    (q : DowngradableRWMutex × PC) (hinv : InvC rw c) (fo : c.Facts)
    (hq : q ∈ next rw (PC.tryRLockLoaded v))
    (fn : (c.move (PC.tryRLockLoaded v) q.2).Facts)
    (hb : (c.move (PC.tryRLockLoaded v) q.2).cap) :
    InvC q.1 (c.move (PC.tryRLockLoaded v) q.2) := by
  have ph := hinv.phase fo
  obtain ⟨i1, i2, i3, i4, i5, -⟩ := hinv
  simp only [next, List.mem_singleton] at hq
  unfold Census.Facts at fo
  by_cases hv : v < 0
  · -- no thread holds a negative loaded value
    exfalso
    have hbad := fn.2.2.2.2.2.2.2.2.2.2.2.2.2.1
    have hq2 : cBad q.2 = 0 := by
      subst hq
      unfold CompareAndSwapInt32
      split_ifs <;> simp [cBad]
    simp only [Census.move] at hbad
    rw [hq2] at hbad
    simp only [cBad, hv, if_true] at hbad
    omega
  · by_cases hc : rw.readerCount = v
    · simp only [CompareAndSwapInt32, hc, if_true] at hq
      subst hq
      unfold Census.Facts at fn
      unfold Census.cap at hb
      unfold InvC
      have hw : wrap32 (v + 1) = v + 1 := by
        unfold wrap32; rcases ph with h | h | h | h | h <;> omega
      simp only [hw, Census.move, cLH, cLA, cLP, cWr, cTH, cTF, cUL, cDL, cRP, cRd, cU, cQ,
        pend, vLA, cBad, hv, if_false] at fn hb ⊢
      rcases ph with h | h | h | h | h <;> omega
    · simp only [CompareAndSwapInt32, hc, if_false] at hq
      subst hq
      unfold Census.Facts at fn
      unfold Census.cap at hb
      unfold InvC
      simp only [Census.move, cLH, cLA, cLP, cWr, cTH, cTF, cUL, cDL, cRP, cRd, cU, cQ,
        pend, vLA, cBad, hv, if_false] at fn hb ⊢
      rcases ph with h | h | h | h | h <;> omega

theorem step_rLockParked (rw : DowngradableRWMutex) (c : Census)
    (q : DowngradableRWMutex × PC) (hinv : InvC rw c) (fo : c.Facts)
    (hq : q ∈ next rw PC.rLockParked)
    (fn : (c.move PC.rLockParked q.2).Facts) (hb : (c.move PC.rLockParked q.2).cap) :
    InvC q.1 (c.move PC.rLockParked q.2) := by
  have ph := hinv.phase fo
  obtain ⟨i1, i2, i3, i4, i5, -⟩ := hinv
  unfold Census.Facts at fo
  by_cases hs : 0 < rw.readerSem
  · simp only [next, runtimeSemacquire, hs, if_true, List.mem_singleton] at hq
    subst hq
    unfold Census.Facts at fn
    unfold Census.cap at hb
    unfold InvC
    simp only [Census.move, cLH, cLA, cLP, cWr, cTH, cTF, cUL, cDL, cRP, cRd, cU, cQ,
      pend, vLA, cBad] at fn hb ⊢
    rcases ph with h | h | h | h | h <;> omega
  · simp only [next, runtimeSemacquire, hs, if_false, List.not_mem_nil] at hq

theorem step_reading (rw : DowngradableRWMutex) (c : Census)
    (q : DowngradableRWMutex × PC) (hinv : InvC rw c) (fo : c.Facts)
    (hq : q ∈ next rw PC.reading)
    (fn : (c.move PC.reading q.2).Facts) (hb : (c.move PC.reading q.2).cap) :
    InvC q.1 (c.move PC.reading q.2) := by
  have ph := hinv.phase fo
  obtain ⟨i1, i2, i3, i4, i5, -⟩ := hinv
  simp only [next, List.mem_singleton] at hq
  subst hq
  unfold Census.Facts at fo
  have hrd : 1 ≤ c.nRd := by
    have := fn.2.2.2.2.2.2.2.2.2.1
    simp only [Census.move, cRd] at this
    split_ifs at this <;> simp only [cRd] at this <;> omega
  have hw : AddInt32 rw.readerCount (-1) = rw.readerCount - 1 := by
    unfold AddInt32 wrap32; omega
  have hw2 : wrap32 (rw.readerCount - 1 + 1) = rw.readerCount := by
    unfold wrap32; omega
  have hnp : ¬ (rw.readerCount = 0 ∨ rw.readerCount = -rwmutexMaxReaders) ∨
      ¬ rw.readerCount - 1 < 0 := by
    unfold rwmutexMaxReaders
    rcases ph with h | h | h | h | h <;> omega
  unfold Census.Facts at fn
  unfold Census.cap at hb
  unfold InvC
  simp only [hw, hw2] at fn hb ⊢
  split_ifs at fn hb ⊢ with h1 h2
  · exfalso
    rcases hnp with h3 | h3
    · exact h3 h2
    · exact h3 h1
  · simp only [Census.move, cLH, cLA, cLP, cWr, cTH, cTF, cUL, cDL, cRP, cRd, cU, cQ,
      pend, vLA, cBad] at fn hb ⊢
    rcases ph with h | h | h | h | h <;> omega
  · simp only [Census.move, cLH, cLA, cLP, cWr, cTH, cTF, cUL, cDL, cRP, cRd, cU, cQ,
      pend, vLA, cBad] at fn hb ⊢
    rcases ph with h | h | h | h | h <;> omega

theorem step_rUnlockWait (rw : DowngradableRWMutex) (c : Census)
    (q : DowngradableRWMutex × PC) (hinv : InvC rw c) (fo : c.Facts)
    (hq : q ∈ next rw PC.rUnlockWait)
    (fn : (c.move PC.rUnlockWait q.2).Facts) (hb : (c.move PC.rUnlockWait q.2).cap) :
    InvC q.1 (c.move PC.rUnlockWait q.2) := by
  have ph := hinv.phase fo
  obtain ⟨i1, i2, i3, i4, i5, -⟩ := hinv
  simp only [next, List.mem_singleton] at hq
  subst hq
  unfold Census.Facts at fo
  have hu : 1 ≤ c.nU := by
    have := fn.2.2.2.2.2.2.2.2.2.2.1
    simp only [Census.move, cU] at this
    split_ifs at this <;> simp only [cU] at this <;> omega
  have hw : AddInt32 rw.readerWait (-1) = rw.readerWait - 1 := by
    unfold AddInt32 wrap32
    rcases ph with h | h | h | h | h <;> omega
  unfold Census.Facts at fn
  unfold Census.cap at hb
  unfold InvC
  simp only [hw] at fn hb ⊢
  split_ifs at fn hb ⊢ with h1 <;>
    simp only [Census.move, cLH, cLA, cLP, cWr, cTH, cTF, cUL, cDL, cRP, cRd, cU, cQ,
      pend, vLA, cBad] at fn hb ⊢ <;>
    rcases ph with h | h | h | h | h <;> omega

theorem step_rUnlockPost (rw : DowngradableRWMutex) (c : Census)
    (q : DowngradableRWMutex × PC) (hinv : InvC rw c) (fo : c.Facts)
    (hq : q ∈ next rw PC.rUnlockPost)
    (fn : (c.move PC.rUnlockPost q.2).Facts) (hb : (c.move PC.rUnlockPost q.2).cap) :
    InvC q.1 (c.move PC.rUnlockPost q.2) := by
  have ph := hinv.phase fo
  obtain ⟨i1, i2, i3, i4, i5, -⟩ := hinv
  simp only [next, List.mem_singleton] at hq
  subst hq
  unfold Census.Facts at fo fn
  unfold Census.cap at hb
  unfold InvC
  simp only [Census.move, cLH, cLA, cLP, cWr, cTH, cTF, cUL, cDL, cRP, cRd, cU, cQ,
    pend, vLA, cBad, runtimeSemrelease, wrapU32] at fn hb ⊢
  rcases ph with h | h | h | h | h <;> omega

theorem step_lockHasW (rw : DowngradableRWMutex) (c : Census)
    (q : DowngradableRWMutex × PC) (hinv : InvC rw c) (fo : c.Facts)
    (hq : q ∈ next rw PC.lockHasW)
    (fn : (c.move PC.lockHasW q.2).Facts) (hb : (c.move PC.lockHasW q.2).cap) :
    InvC q.1 (c.move PC.lockHasW q.2) := by
  have ph := hinv.phase fo
  obtain ⟨i1, i2, i3, i4, i5, -⟩ := hinv
  simp only [next, List.mem_singleton] at hq
  subst hq
  unfold Census.Facts at fo
  have hlh : 1 ≤ c.nLH := by
    have := fn.1
    simp only [Census.move, cLH] at this
    split_ifs at this <;> simp only [cLH] at this <;> omega
  have hw : AddInt32 rw.readerCount (-rwmutexMaxReaders) = rw.readerCount - 1073741824 := by
    unfold AddInt32 wrap32 rwmutexMaxReaders; omega
  have hw2 : wrap32 (rw.readerCount - 1073741824 + rwmutexMaxReaders) = rw.readerCount := by
    unfold wrap32 rwmutexMaxReaders; omega
  unfold Census.Facts at fn
  unfold Census.cap at hb
  unfold InvC
  simp only [hw, hw2] at fn hb ⊢
  split_ifs at fn hb ⊢ with h1 <;>
    simp only [Census.move, cLH, cLA, cLP, cWr, cTH, cTF, cUL, cDL, cRP, cRd, cU, cQ,
      pend, vLA, cBad] at fn hb ⊢ <;>
    rcases ph with h | h | h | h | h <;> omega

theorem step_lockAnnounced (r : Int) (rw : DowngradableRWMutex) (c : Census)
    (q : DowngradableRWMutex × PC) (hinv : InvC rw c) (fo : c.Facts)
    (hq : q ∈ next rw (PC.lockAnnounced r))
    (fn : (c.move (PC.lockAnnounced r) q.2).Facts)
    (hb : (c.move (PC.lockAnnounced r) q.2).cap) :
    InvC q.1 (c.move (PC.lockAnnounced r) q.2) := by
  have ph := hinv.phase fo
  obtain ⟨i1, i2, i3, i4, i5, -⟩ := hinv
  simp only [next, List.mem_singleton] at hq
  subst hq
  unfold Census.Facts at fo
  have hla : 1 ≤ c.nLA ∧ c.vla = r := by
    have h1 := fn.2.1
    have h2 := fn.2.2.2.2.2.2.2.2.2.2.2.2.2.2.2
    simp only [Census.move, cLA, vLA] at h1 h2
    split_ifs at h1 h2 <;> simp only [cLA, vLA] at h1 h2 <;> omega
  have hw : AddInt32 rw.readerWait r = rw.readerWait + r := by
    unfold AddInt32 wrap32
    rcases ph with h | h | h | h | h <;> omega
  unfold Census.Facts at fn
  unfold Census.cap at hb
  unfold InvC
  simp only [hw] at fn hb ⊢
  split_ifs at fn hb ⊢ with h1 <;>
    simp only [Census.move, cLH, cLA, cLP, cWr, cTH, cTF, cUL, cDL, cRP, cRd, cU, cQ,
      pend, vLA, cBad] at fn hb ⊢ <;>
    rcases ph with h | h | h | h | h <;> omega

theorem step_lockParked (rw : DowngradableRWMutex) (c : Census)
    (q : DowngradableRWMutex × PC) (hinv : InvC rw c) (fo : c.Facts)
    (hq : q ∈ next rw PC.lockParked)
    (fn : (c.move PC.lockParked q.2).Facts) (hb : (c.move PC.lockParked q.2).cap) :
    InvC q.1 (c.move PC.lockParked q.2) := by
  have ph := hinv.phase fo
  obtain ⟨i1, i2, i3, i4, i5, -⟩ := hinv
  unfold Census.Facts at fo
  by_cases hs : 0 < rw.writerSem
  · simp only [next, runtimeSemacquire, hs, if_true, List.mem_singleton] at hq
    subst hq
    unfold Census.Facts at fn
    unfold Census.cap at hb
    unfold InvC
    simp only [Census.move, cLH, cLA, cLP, cWr, cTH, cTF, cUL, cDL, cRP, cRd, cU, cQ,
      pend, vLA, cBad] at fn hb ⊢
    rcases ph with h | h | h | h | h <;> omega
  · simp only [next, runtimeSemacquire, hs, if_false, List.not_mem_nil] at hq

theorem step_writing (rw : DowngradableRWMutex) (c : Census)
    (q : DowngradableRWMutex × PC) (hinv : InvC rw c) (fo : c.Facts)
    (hq : q ∈ next rw PC.writing)
    (fn : (c.move PC.writing q.2).Facts) (hb : (c.move PC.writing q.2).cap) :
    InvC q.1 (c.move PC.writing q.2) := by
  have ph := hinv.phase fo
  obtain ⟨i1, i2, i3, i4, i5, -⟩ := hinv
  simp only [next, List.mem_cons, List.mem_singleton, List.not_mem_nil, or_false] at hq
  unfold Census.Facts at fo
  have hwr : 1 ≤ c.nWr := by
    have := fn.2.2.2.1
    simp only [Census.move, cWr] at this
    rcases hq with hq | hq <;> subst hq <;> simp only at this <;>
      split_ifs at this <;> simp only [cWr] at this <;> omega
  rcases hq with hq | hq
  · -- Unlock: the addition
    subst hq
    have hw : AddInt32 rw.readerCount rwmutexMaxReaders = rw.readerCount + 1073741824 := by
      unfold AddInt32 wrap32 rwmutexMaxReaders; omega
    have hlt : ¬ rw.readerCount + 1073741824 ≥ rwmutexMaxReaders := by
      unfold rwmutexMaxReaders; omega
    unfold Census.Facts at fn
    unfold Census.cap at hb
    unfold InvC
    simp only [hw, hlt, if_false, Census.move, cLH, cLA, cLP, cWr, cTH, cTF, cUL, cDL, cRP,
      cRd, cU, cQ, pend, vLA, cBad] at fn hb ⊢
    rcases ph with h | h | h | h | h <;> omega
  · -- DowngradeLock: the addition
    subst hq
    have hw : AddInt32 rw.readerCount (rwmutexMaxReaders + 1) =
        rw.readerCount + 1073741825 := by
      unfold AddInt32 wrap32 rwmutexMaxReaders; omega
    have hlt : ¬ rw.readerCount + 1073741825 ≥ rwmutexMaxReaders + 1 := by
      unfold rwmutexMaxReaders; omega
    unfold Census.Facts at fn
    unfold Census.cap at hb
    unfold InvC
    simp only [hw, hlt, if_false, Census.move, cLH, cLA, cLP, cWr, cTH, cTF, cUL, cDL, cRP,
      cRd, cU, cQ, pend, vLA, cBad] at fn hb ⊢
    rcases ph with h | h | h | h | h <;> omega

theorem step_tryLockHasW (rw : DowngradableRWMutex) (c : Census)
    (q : DowngradableRWMutex × PC) (hinv : InvC rw c) (fo : c.Facts)
    (hq : q ∈ next rw PC.tryLockHasW)
    (fn : (c.move PC.tryLockHasW q.2).Facts) (hb : (c.move PC.tryLockHasW q.2).cap) :
    InvC q.1 (c.move PC.tryLockHasW q.2) := by
  have ph := hinv.phase fo
  obtain ⟨i1, i2, i3, i4, i5, -⟩ := hinv
  simp only [next, List.mem_singleton] at hq
  unfold Census.Facts at fo
  by_cases hc : rw.readerCount = 0
  · simp only [CompareAndSwapInt32, hc, if_true] at hq
    subst hq
    have hth : 1 ≤ c.nTH := by
      have := fn.2.2.2.2.1
      simp only [Census.move, cTH] at this
      omega
    unfold Census.Facts at fn
    unfold Census.cap at hb
    unfold InvC
    simp only [Census.move, cLH, cLA, cLP, cWr, cTH, cTF, cUL, cDL, cRP, cRd, cU, cQ,
      pend, vLA, cBad, rwmutexMaxReaders] at fn hb ⊢
    rcases ph with h | h | h | h | h <;> omega
  · simp only [CompareAndSwapInt32, hc, if_false] at hq
    subst hq
    unfold Census.Facts at fn
    unfold Census.cap at hb
    unfold InvC
    simp only [Census.move, cLH, cLA, cLP, cWr, cTH, cTF, cUL, cDL, cRP, cRd, cU, cQ,
      pend, vLA, cBad] at fn hb ⊢
    rcases ph with h | h | h | h | h <;> omega

theorem step_tryLockFailed (rw : DowngradableRWMutex) (c : Census)
    (q : DowngradableRWMutex × PC) (hinv : InvC rw c) (fo : c.Facts)
    (hq : q ∈ next rw PC.tryLockFailed)
    (fn : (c.move PC.tryLockFailed q.2).Facts) (hb : (c.move PC.tryLockFailed q.2).cap) :
    InvC q.1 (c.move PC.tryLockFailed q.2) := by
  have ph := hinv.phase fo
  obtain ⟨i1, i2, i3, i4, i5, -⟩ := hinv
  simp only [next, List.mem_singleton] at hq
  unfold Census.Facts at fo
  have htf : 1 ≤ c.nTF := by
    have hq2 : cTF q.2 = 0 := by
      subst hq
      rcases Mutex.Unlock rw.w with ⟨w2, b⟩
      cases b <;> rfl
    have := fn.2.2.2.2.2.1
    simp only [Census.move] at this
    rw [hq2] at this
    simp only [cTF] at this
    omega
  have hst : rw.w.state = 1 := by omega
  rw [mutex_unlock_held _ hst] at hq
  subst hq
  unfold Census.Facts at fn
  unfold Census.cap at hb
  unfold InvC
  simp only [Census.move, cLH, cLA, cLP, cWr, cTH, cTF, cUL, cDL, cRP, cRd, cU, cQ,
    pend, vLA, cBad] at fn hb ⊢
  rcases ph with h | h | h | h | h <;> omega

theorem step_unlockLoop (i r : Int) (rw : DowngradableRWMutex) (c : Census)
    (q : DowngradableRWMutex × PC) (hinv : InvC rw c) (fo : c.Facts)
    (hp : c.Has (PC.unlockLoop i r)) (hq : q ∈ next rw (PC.unlockLoop i r))
    (fn : (c.move (PC.unlockLoop i r) q.2).Facts)
    (hb : (c.move (PC.unlockLoop i r) q.2).cap) :
    InvC q.1 (c.move (PC.unlockLoop i r) q.2) := by
  have ph := hinv.phase fo
  obtain ⟨i1, i2, i3, i4, i5, -⟩ := hinv
  simp only [next, List.mem_singleton] at hq
  unfold Census.Facts at fo
  by_cases hc : i < r
  · simp only [hc, if_true] at hq
    subst hq
    have hul : 1 ≤ c.nUL ∧ pend (PC.unlockLoop i r) ≤ c.pnd := by
      unfold Census.Has at hp
      simp only [cUL] at hp
      omega
    unfold Census.Facts at fn
    unfold Census.cap at hb
    unfold InvC
    simp only [Census.move, cLH, cLA, cLP, cWr, cTH, cTF, cUL, cDL, cRP, cRd, cU, cQ,
      pend, vLA, cBad, runtimeSemrelease, wrapU32] at hul fn hb ⊢
    rcases ph with h | h | h | h | h <;> omega
  · simp only [hc, if_false] at hq
    have hul : 1 ≤ c.nUL := by
      unfold Census.Has at hp
      simp only [cUL] at hp
      omega
    have hst : rw.w.state = 1 := by omega
    rw [mutex_unlock_held _ hst] at hq
    subst hq
    unfold Census.Facts at fn
    unfold Census.cap at hb
    unfold InvC
    simp only [Census.move, cLH, cLA, cLP, cWr, cTH, cTF, cUL, cDL, cRP, cRd, cU, cQ,
      pend, vLA, cBad] at fn hb ⊢
    rcases ph with h | h | h | h | h <;> omega

theorem step_downgradeLoop (i r : Int) (rw : DowngradableRWMutex) (c : Census)
    (q : DowngradableRWMutex × PC) (hinv : InvC rw c) (fo : c.Facts)
    (hp : c.Has (PC.downgradeLoop i r)) (hq : q ∈ next rw (PC.downgradeLoop i r))
    (fn : (c.move (PC.downgradeLoop i r) q.2).Facts)
    (hb : (c.move (PC.downgradeLoop i r) q.2).cap) :
    InvC q.1 (c.move (PC.downgradeLoop i r) q.2) := by
  have ph := hinv.phase fo
  obtain ⟨i1, i2, i3, i4, i5, -⟩ := hinv
  simp only [next, List.mem_singleton] at hq
  unfold Census.Facts at fo
  by_cases hc : i < r
  · simp only [hc, if_true] at hq
    subst hq
    have hul : 1 ≤ c.nDL ∧ pend (PC.downgradeLoop i r) ≤ c.pnd := by
      unfold Census.Has at hp
      simp only [cDL] at hp
      omega
    unfold Census.Facts at fn
    unfold Census.cap at hb
    unfold InvC
    simp only [Census.move, cLH, cLA, cLP, cWr, cTH, cTF, cUL, cDL, cRP, cRd, cU, cQ,
      pend, vLA, cBad, runtimeSemrelease, wrapU32] at hul fn hb ⊢
    rcases ph with h | h | h | h | h <;> omega
  · simp only [hc, if_false] at hq
    have hul : 1 ≤ c.nDL := by
      unfold Census.Has at hp
      simp only [cDL] at hp
      omega
    have hst : rw.w.state = 1 := by omega
    rw [mutex_unlock_held _ hst] at hq
    subst hq
    unfold Census.Facts at fn
    unfold Census.cap at hb
    unfold InvC
    simp only [Census.move, cLH, cLA, cLP, cWr, cTH, cTF, cUL, cDL, cRP, cRd, cU, cQ,
      pend, vLA, cBad] at fn hb ⊢
    rcases ph with h | h | h | h | h <;> omega

/-! ## Mutual exclusion -/

/-- The model lets readers share the lock: two threads in the read region at
once are reachable, one by `RLock` and one by `TryRLock`. -/
theorem two_readers_reachable :
    Reachable 2 ⟨⟨⟨0, 0⟩, 0, 0, 2, 0⟩, [PC.reading, PC.reading]⟩ :=
  have r0 : Reachable 2 ⟨DowngradableRWMutex.zero, [PC.idle, PC.idle]⟩ := Reachable.init
  have r1 : Reachable 2 ⟨⟨⟨0, 0⟩, 0, 0, 1, 0⟩, [PC.reading, PC.idle]⟩ :=
    Reachable.step r0 ⟨0, by decide, (⟨⟨0, 0⟩, 0, 0, 1, 0⟩, PC.reading), by decide, rfl⟩
      (by decide)
  have r2 : Reachable 2 ⟨⟨⟨0, 0⟩, 0, 0, 1, 0⟩, [PC.reading, PC.tryRLockLoaded 1]⟩ :=
    Reachable.step r1 ⟨1, by decide, (⟨⟨0, 0⟩, 0, 0, 1, 0⟩, PC.tryRLockLoaded 1),
      by decide, rfl⟩ (by decide)
  Reachable.step r2 ⟨1, by decide, (⟨⟨0, 0⟩, 0, 0, 2, 0⟩, PC.reading), by decide, rfl⟩
    (by decide)

theorem inv_step {s s1 : System} (hinv : Inv s) (hstep : Step s s1)
    (hb : readers s1.pcs < 1073741824) : Inv s1 := by
  obtain ⟨t, ht, q, hq, rfl⟩ := hstep
  unfold Inv at hinv ⊢
  simp only at hb ⊢
  have fo := census_facts s.pcs
  have fn := census_facts (s.pcs.set t q.2)
  have hp := census_has s.pcs t ht
  have hcap : (census (s.pcs.set t q.2)).cap := by
    have := readers_eq (s.pcs.set t q.2)
    unfold Census.cap census
    simp only
    omega
  rw [census_move s.pcs t ht q.2] at fn hcap ⊢
  generalize s.pcs.get ⟨t, ht⟩ = p at hq fn hcap hp ⊢
  cases p with
  | idle => exact step_idle _ _ q hinv fo hq fn hcap
  | tryRLockHead => exact step_tryRLockHead _ _ q hinv fo hq fn hcap
  | tryRLockLoaded v => exact step_tryRLockLoaded v _ _ q hinv fo hq fn hcap
  | rLockParked => exact step_rLockParked _ _ q hinv fo hq fn hcap
  | reading => exact step_reading _ _ q hinv fo hq fn hcap
  | rUnlockWait => exact step_rUnlockWait _ _ q hinv fo hq fn hcap
  | rUnlockPost => exact step_rUnlockPost _ _ q hinv fo hq fn hcap
  | lockHasW => exact step_lockHasW _ _ q hinv fo hq fn hcap
  | lockAnnounced r => exact step_lockAnnounced r _ _ q hinv fo hq fn hcap
  | lockParked => exact step_lockParked _ _ q hinv fo hq fn hcap
  | writing => exact step_writing _ _ q hinv fo hq fn hcap
  | tryLockHasW => exact step_tryLockHasW _ _ q hinv fo hq fn hcap
  | tryLockFailed => exact step_tryLockFailed _ _ q hinv fo hq fn hcap
  | unlockLoop i r => exact step_unlockLoop i r _ _ q hinv fo hp hq fn hcap
  | downgradeLoop i r => exact step_downgradeLoop i r _ _ q hinv fo hp hq fn hcap
  | crashed => simp only [next, List.not_mem_nil] at hq

theorem reachable_inv {n : Nat} {s : System} (h : Reachable n s) : Inv s := by
  induction h with
  | init => exact inv_init n
  | step _ hs hb ih => exact inv_step ih hs hb

theorem total_getElem?_le (f : PC → Int) (hf : ∀ p, 0 ≤ f p) (l : List PC) (t : Nat) (p : PC)
    (h : l[t]? = some p) : f p ≤ total f l := by
  obtain ⟨ht, rfl⟩ := List.getElem?_eq_some_iff.mp h
  exact total_get_le f hf l t ht

theorem total_two_le (f : PC → Int) (hf : ∀ p, 0 ≤ f p) (hi : f PC.idle = 0) (l : List PC)
    (t u : Nat) (p q : PC) (htu : u ≠ t) (ht : l[t]? = some p) (hu : l[u]? = some q) :
    f p + f q ≤ total f l := by
  obtain ⟨ht1, rfl⟩ := List.getElem?_eq_some_iff.mp ht
  have h1 := total_set f l t ht1 PC.idle
  have h2 : (l.set t PC.idle)[u]? = some q := by
    rw [List.getElem?_set_ne (Ne.symm htu)]
    exact hu
  have h3 := total_getElem?_le f hf _ u q h2
  simp only [List.get_eq_getElem] at h1
  omega

/-- C1: in every state reached from the unlocked lock by interleaved atomic
steps of `RLock`, `TryRLock`, `RUnlock`, `Lock`, `TryLock`, `Unlock` and
`DowngradeLock` of any number `n` of threads, with releases only by holders and
fewer than 2^30 readers: if thread `t` is in its write region, no other thread
is in a write region and no thread is in a read region. -/
theorem writer_excludes_all (n : Nat) (s : System) (h : Reachable n s) (t : Nat)
    (ht : s.pcs[t]? = some PC.writing) :
    (∀ u : Nat, u ≠ t → s.pcs[u]? ≠ some PC.writing) ∧
      (∀ u : Nat, s.pcs[u]? ≠ some PC.reading) := by
  have hinv := reachable_inv h
  have fo := census_facts s.pcs
  unfold Inv InvC at hinv
  unfold Census.Facts at fo
  obtain ⟨-, i2, -, -, -, -, -, -, i9⟩ := hinv
  simp only [census] at i2 i9 fo
  have hwr : ∀ p, 0 ≤ cWr p := fun p => by cases p <;> simp [cWr]
  have hrd : ∀ p, 0 ≤ cRd p := fun p => by cases p <;> simp [cRd]
  have h1 := total_getElem?_le cWr hwr s.pcs t _ ht
  simp only [cWr] at h1
  have h9 := i9 (by omega)
  constructor
  · intro u hu hw
    have h2 := total_two_le cWr hwr rfl s.pcs t u _ _ hu ht hw
    simp only [cWr] at h2
    omega
  · intro u hr
    have h2 := total_getElem?_le cRd hrd s.pcs u _ hr
    simp only [cRd] at h2
    omega

/-- C1 (witness): thread 0 takes the lock with `Lock` (two steps), then thread 1
enters `RLock` and parks. Thread 0 is in its write region and thread 1 is
neither writing nor reading. -/
theorem writer_excludes_all_witness :
    Reachable 2 ⟨⟨⟨1, 0⟩, 0, 0, 1 - 1073741824, 0⟩, [PC.writing, PC.rLockParked]⟩ ∧
    ((∀ u : Nat, u ≠ 0 → [PC.writing, PC.rLockParked][u]? ≠ some PC.writing) ∧
      (∀ u : Nat, [PC.writing, PC.rLockParked][u]? ≠ some PC.reading)) :=
  have r0 : Reachable 2 ⟨DowngradableRWMutex.zero, [PC.idle, PC.idle]⟩ := Reachable.init
  have r1 : Reachable 2 ⟨⟨⟨1, 0⟩, 0, 0, 0, 0⟩, [PC.lockHasW, PC.idle]⟩ :=
    Reachable.step r0 ⟨0, by decide, (⟨⟨1, 0⟩, 0, 0, 0, 0⟩, PC.lockHasW), by decide, rfl⟩
      (by decide)
  have r2 : Reachable 2 ⟨⟨⟨1, 0⟩, 0, 0, -1073741824, 0⟩, [PC.writing, PC.idle]⟩ :=
    Reachable.step r1 ⟨0, by decide, (⟨⟨1, 0⟩, 0, 0, -1073741824, 0⟩, PC.writing),
      by decide, rfl⟩ (by decide)
  have r3 : Reachable 2 ⟨⟨⟨1, 0⟩, 0, 0, 1 - 1073741824, 0⟩, [PC.writing, PC.rLockParked]⟩ :=
    Reachable.step r2 ⟨1, by decide, (⟨⟨1, 0⟩, 0, 0, 1 - 1073741824, 0⟩, PC.rLockParked),
      by decide, rfl⟩ (by decide)
  ⟨r3, writer_excludes_all 2 _ r3 0 rfl⟩

end Sync.Interleaving

namespace Sync.DowngradableRWMutex

/-! ## A writer draining its readers -/

/-- `Lock` on read-held(k): the bias and the reader count go in, and the writer
suspends on `writerSem`. -/
theorem lock_readHeld (k sema : Nat) (h1 : 1 ≤ k) (h2 : (k : Int) < rwmutexMaxReaders) :
    Lock (readHeld k sema) =
      ⟨⟨⟨1, sema⟩, 0, 0, (k : Int) - rwmutexMaxReaders, k⟩, .parked .writerSem, []⟩ := by
  have hi : isInt32 (k : Int) := by
    unfold isInt32; unfold rwmutexMaxReaders at h2; omega
  have hr := lock_r_eq (k : Int) hi
  have ha : AddInt32 (k : Int) (-rwmutexMaxReaders) = (k : Int) - rwmutexMaxReaders := by
    unfold AddInt32 wrap32; unfold rwmutexMaxReaders at h2 ⊢; omega
  have hk : (k : Int) ≠ 0 := by omega
  have hn : AddInt32 0 (k : Int) = k := by
    unfold AddInt32 wrap32; unfold rwmutexMaxReaders at h2; omega
  simp [Lock, readHeld, Mutex.Lock, CompareAndSwapInt32, mutexLocked, hr, hk, hn,
    runtimeSemacquire]
  exact ha

/-- One `RUnlock` while the writer waits for `m` readers: it returns, takes one
off `readerCount` and `readerWait`, and posts `writerSem` exactly when it is
the last. -/
theorem rUnlock_draining (m sema : Nat) (h1 : 1 ≤ m) (h2 : (m : Int) < rwmutexMaxReaders) :
    RUnlock ⟨⟨1, sema⟩, 0, 0, (m : Int) - rwmutexMaxReaders, m⟩ =
      ⟨⟨⟨1, sema⟩, if m = 1 then 1 else 0, 0, ((m - 1 : Nat) : Int) - rwmutexMaxReaders,
        ((m - 1 : Nat) : Int)⟩, .returned, if m = 1 then [.writerSem] else []⟩ := by
  have ha : AddInt32 ((m : Int) - rwmutexMaxReaders) (-1) =
      ((m - 1 : Nat) : Int) - rwmutexMaxReaders := by
    unfold AddInt32 wrap32; unfold rwmutexMaxReaders at h2 ⊢; omega
  have hneg : ((m - 1 : Nat) : Int) - rwmutexMaxReaders < 0 := by
    unfold rwmutexMaxReaders at h2 ⊢; omega
  have hw : wrap32 (((m - 1 : Nat) : Int) - rwmutexMaxReaders + 1) =
      (m : Int) - rwmutexMaxReaders := by
    unfold wrap32; unfold rwmutexMaxReaders at h2 ⊢; omega
  have hnp : ¬ ((m : Int) - rwmutexMaxReaders = 0 ∨
      (m : Int) - rwmutexMaxReaders = -rwmutexMaxReaders) := by
    unfold rwmutexMaxReaders at h2 ⊢; omega
  have hn : AddInt32 (m : Int) (-1) = ((m - 1 : Nat) : Int) := by
    unfold AddInt32 wrap32; unfold rwmutexMaxReaders at h2; omega
  unfold RUnlock
  simp only [ha, hneg, hw, hnp, hn, if_true, if_false]
  by_cases hm : m = 1
  · subst hm
    simp [runtimeSemrelease, wrapU32]
  · have : ¬ ((m - 1 : Nat) : Int) = 0 := by omega
    simp [hm, this]

theorem rUnlockTimes_length (n : Nat) :
    ∀ rw : DowngradableRWMutex, (RUnlockTimes n rw).length = n := by
  induction n with
  | zero => intro rw; rfl
  | succ n ih => intro rw; simp [RUnlockTimes, ih]

/-- The `j+1`-th of `n ≤ m` calls of `RUnlock` while the writer waits for `m`
readers. -/
theorem rUnlockTimes_getElem? (sema : Nat) (n : Nat) :
    ∀ m : Nat, n ≤ m → (m : Int) < rwmutexMaxReaders → ∀ j : Nat, j < n →
      (RUnlockTimes n ⟨⟨1, sema⟩, 0, 0, (m : Int) - rwmutexMaxReaders, m⟩)[j]? =
        some ⟨⟨⟨1, sema⟩, if j + 1 = m then 1 else 0, 0,
          ((m - (j + 1) : Nat) : Int) - rwmutexMaxReaders, ((m - (j + 1) : Nat) : Int)⟩,
          .returned, if j + 1 = m then [.writerSem] else []⟩ := by
  induction n with
  | zero => intro m _ _ j hj; omega
  | succ n ih =>
    intro m hnm hm j hj
    have hd := rUnlock_draining m sema (by omega) hm
    cases j with
    | zero =>
      simp only [RUnlockTimes, List.getElem?_cons_zero, hd, zero_add]
      by_cases h : m = 1
      · subst h; simp
      · have h' : ¬ 1 = m := fun e => h e.symm
        simp [h, h']
    | succ j =>
      have hm1 : ¬ m = 1 := by omega
      simp only [RUnlockTimes, List.getElem?_cons_succ, hd, hm1, if_false]
      have hc : ((0 : Nat) : Int) = 0 := rfl
      rw [ih (m - 1) (by omega) (by omega) j (by omega)]
      have e1 : m - 1 - (j + 1) = m - (j + 1 + 1) := by omega
      have e2 : (j + 1 = m - 1) ↔ (j + 1 + 1 = m) := by omega
      simp only [e1, e2]

/-- The posts of `n ≤ m` calls of `RUnlock` while the writer waits for `m`
readers: one post of `writerSem` if all `m` have left, none before. -/
theorem rUnlockTimes_allPosts (sema : Nat) (n : Nat) :
    ∀ m : Nat, 1 ≤ m → n ≤ m → (m : Int) < rwmutexMaxReaders →
      allPosts (RUnlockTimes n ⟨⟨1, sema⟩, 0, 0, (m : Int) - rwmutexMaxReaders, m⟩) =
        if n = m then [Sem.writerSem] else [] := by
  induction n with
  | zero =>
    intro m h1 _ _
    have : ¬ 0 = m := by omega
    simp [RUnlockTimes, allPosts, this]
  | succ n ih =>
    intro m h1 hnm hm
    have hd := rUnlock_draining m sema h1 hm
    by_cases h : m = 1
    · subst h
      have hn : n = 0 := by omega
      subst hn
      simp only [RUnlockTimes, allPosts, hd]
      simp
    · simp only [RUnlockTimes, allPosts, hd, h, if_false, List.nil_append]
      rw [ih (m - 1) (by omega) (by omega) (by omega)]
      have e : (n = m - 1) ↔ (n + 1 = m) := by omega
      simp only [e]

/-- C11: for `1 ≤ k < 2^30`, from read-held(k) `Lock` leaves
`readerCount = k - 2^30` and `readerWait = k` and suspends on `writerSem`. Each
of the following `k` calls of `RUnlock` returns (none panics) and takes one off
`readerCount` and off `readerWait`; the `k`-th posts `writerSem` and no earlier
one posts anything, so `writerSem` is posted exactly once in total; after the
`k`-th, `readerWait = 0` and `readerCount = -2^30`. -/
theorem lock_drains_readers (k sema : Nat) (h1 : 1 ≤ k)
    (h2 : (k : Int) < rwmutexMaxReaders) :
    Lock (readHeld k sema) =
      ⟨⟨⟨1, sema⟩, 0, 0, (k : Int) - rwmutexMaxReaders, k⟩, .parked .writerSem, []⟩ ∧
    (RUnlockTimes k (Lock (readHeld k sema)).rw).length = k ∧
    (∀ j : Nat, j < k →
      (RUnlockTimes k (Lock (readHeld k sema)).rw)[j]? =
        some ⟨⟨⟨1, sema⟩, if j + 1 = k then 1 else 0, 0,
          (k : Int) - ((j : Int) + 1) - rwmutexMaxReaders, (k : Int) - ((j : Int) + 1)⟩,
          .returned, if j + 1 = k then [.writerSem] else []⟩) ∧
    (RUnlockTimes k (Lock (readHeld k sema)).rw)[k - 1]? =
      some ⟨⟨⟨1, sema⟩, 1, 0, -rwmutexMaxReaders, 0⟩, .returned, [.writerSem]⟩ ∧
    (∀ n : Nat, n < k → allPosts (RUnlockTimes n (Lock (readHeld k sema)).rw) = []) ∧
    allPosts (RUnlockTimes k (Lock (readHeld k sema)).rw) = [.writerSem] := by
  have hl := lock_readHeld k sema h1 h2
  rw [hl]
  refine ⟨rfl, rUnlockTimes_length k _, ?_, ?_, ?_, ?_⟩
  · intro j hj
    rw [rUnlockTimes_getElem? sema k k (le_refl k) h2 j hj]
    have e : ((k - (j + 1) : Nat) : Int) = (k : Int) - ((j : Int) + 1) := by omega
    rw [e]
  · rw [rUnlockTimes_getElem? sema k k (le_refl k) h2 (k - 1) (by omega)]
    have e : ((k - (k - 1 + 1) : Nat) : Int) = 0 := by omega
    have e2 : k - 1 + 1 = k := by omega
    simp [e, e2]
  · intro n hn
    rw [rUnlockTimes_allPosts sema n k h1 (by omega) h2]
    have : ¬ n = k := by omega
    simp [this]
  · rw [rUnlockTimes_allPosts sema k k h1 (le_refl k) h2]
    simp

/-- C11 (witness): three readers. `Lock` suspends with `readerWait = 3`; the
third `RUnlock` leaves the write-held state with `writerSem` posted, and that is
the only post. -/
theorem lock_drains_readers_witness :
    (Lock (readHeld 3 0)).out = .parked .writerSem ∧
    (RUnlockTimes 3 (Lock (readHeld 3 0)).rw)[1]? =
      some ⟨⟨⟨1, 0⟩, 0, 0, 1 - rwmutexMaxReaders, 1⟩, .returned, []⟩ ∧
    (RUnlockTimes 3 (Lock (readHeld 3 0)).rw)[2]? =
      some ⟨⟨⟨1, 0⟩, 1, 0, -rwmutexMaxReaders, 0⟩, .returned, [.writerSem]⟩ ∧
    allPosts (RUnlockTimes 3 (Lock (readHeld 3 0)).rw) = [.writerSem] :=
  have h := lock_drains_readers 3 0 (by decide) (by decide)
  ⟨by rw [h.1], h.2.2.1 1 (by decide), h.2.2.2.1, h.2.2.2.2.2⟩

end Sync.DowngradableRWMutex
